import Mathlib

/-!
# Arduino-Kernel: the scheduler core of `Kernel.h` / `Kernel.cpp`

A shallow embedding of the thread registry, the thread primitives, the selector
`setActiveThread`, the timer update `updateThreads` and the hook `SwitchContext`.

Modelling conventions.

* A `TCB*` that points into `threads` is the registry index of that TCB; `nullptr`
  and dangling pointers are `none` / an index outside the registry, and a function that
  dereferences such a pointer has no result (`none`).
* A `std::string` is a Lean string, one character per code unit, and may hold NUL
  characters. A `const char*` denotes the characters before the first NUL: `c_str` gives
  them for `name.c_str()`, and the argument of `thread` is such a C string.
* `millis()` is an argument (`now`), the address returned by `malloc` is an argument
  (`stack`), a function pointer is a number.
* Where a `TCB*` is converted to an integer, the address of the TCB object at each
  registry index is an argument (`address`).
* 32-bit unsigned arithmetic is arithmetic on `Nat` modulo `2 ^ 32`. Loop counters are
  natural numbers: a registry holds fewer TCBs than the counter types can count.
-/

namespace RTOS

/-- The macro `MAX_THREAD_NAME_LEN` of Kernel.h. -/
def MAX_THREAD_NAME_LEN : Nat := 16

/-- The enumeration `ThreadState` (Kernel.h:43-51), in declaration order. -/
inductive ThreadState where
  | active
  | paused
  | queued
  | sleeping
  | blocked
  deriving DecidableEq, Repr

/-- The integer value of a `ThreadState` enumerator. -/
def ThreadState.toNat : ThreadState → Nat
  | .active => 0
  | .paused => 1
  | .queued => 2
  | .sleeping => 3
  | .blocked => 4

/-- Modelled from the spec: the enumerator `waiting` that Kernel.cpp:81 compares a state
against is not declared in the `ThreadState` of Kernel.h. The spec's
`is_runnable(state) := state ∈ {ready, paused, running}` and the comment on that line
("blocked state (waiting, sleeping, blocked)") put it right after `queued`, at the value
where the states that prevent a thread from running begin. -/
def waiting : Nat := 3

/-- The enumeration `ThreadPriority` (Kernel.h:65-73). -/
inductive ThreadPriority where
  | uninterruptible
  | critical
  | high
  | moderate
  | normal
  | low
  | none
  deriving DecidableEq, Repr

/-- The integer value of a `ThreadPriority` enumerator (`uninterruptible = -1`). -/
def ThreadPriority.toInt : ThreadPriority → Int
  | .uninterruptible => -1
  | .critical => 0
  | .high => 1
  | .moderate => 2
  | .normal => 3
  | .low => 4
  | .none => 5

/-- The macro `DEFAULT_THREAD_PRIORITY` of Kernel.h. -/
def DEFAULT_THREAD_PRIORITY : ThreadPriority := .normal

/-- Conversion of an `int` to `uint32_t`. -/
def toU32 (i : Int) : Nat := (i % 2 ^ 32).toNat

/-- Subtraction of two `uint32_t` values, as the hardware does it. -/
def sub32 (a b : Nat) : Nat := (a % 2 ^ 32 + (2 ^ 32 - b % 2 ^ 32)) % 2 ^ 32

/-- The struct `sleep_t` (Kernel.h:53-58). -/
structure sleep_t where
  start : Nat
  delay : Nat
  deriving DecidableEq, Repr

/-- The conversion `sleep_t::operator bool()`: `(millis() - start) >= delay`. -/
def sleep_t.toBool (s : sleep_t) (millis : Nat) : Bool :=
  decide (sub32 millis s.start ≥ s.delay)

/-- The struct `TCB` (Kernel.h:75-100). The member `sleep` is the one Kernel.cpp reaches
as `stateMgr.sleep`. -/
structure TCB where
  sp : Nat
  func : Nat
  priority : ThreadPriority
  state : ThreadState
  sleep : sleep_t
  name : String
  stack : Nat
  deriving DecidableEq, Repr

/-- The size in bytes of `stack_t`: twelve `uint32_t` registers. -/
def sizeof_stack_t : Nat := 48

/-- The constructor's `if (_stackSize < 48) _stackSize = 48;` (Kernel.h:90). -/
def TCB.clampStackSize (_stackSize : Nat) : Nat :=
  if _stackSize < 48 then 48 else _stackSize

/-- The argument of `malloc` in the constructor, `_stackSize + sizeof(stack_t)` in
32-bit unsigned arithmetic (Kernel.h:91). -/
def TCB.mallocArg (_stackSize : Nat) : Nat :=
  (TCB.clampStackSize (_stackSize % 2 ^ 32) + sizeof_stack_t) % 2 ^ 32

/-- The constructor `TCB::TCB` (Kernel.h:84-99); `stack` is what `malloc` returned. The
constructor leaves the member `sleep` unset; it is read only in state `sleeping`, which
`sleep` enters after writing it. -/
def TCB.new (_name : String) (_priority : ThreadPriority) (_state : ThreadState)
    (_func : Nat) (_stackSize : Nat) (stack : Nat) : TCB :=
  { name := _name
    func := _func
    priority := _priority
    state := _state
    stack := stack
    sp := (stack + TCB.clampStackSize (_stackSize % 2 ^ 32)) % 2 ^ 32
    sleep := { start := 0, delay := 0 } }

/-- The kernel's global state: the static members `enabled` and `threads`, the global
`CurrentTCB`, and bit 28 (PENDSVSET) of the register at `0xE000ED04`. -/
structure Kernel where
  enabled : Bool
  threads : List TCB
  CurrentTCB : Option Nat
  PENDSVSET : Bool
  deriving DecidableEq, Repr

/-- The state before `init()`: `enabled = false`, no thread, `CurrentTCB` null. -/
def startup : Kernel :=
  { enabled := false, threads := [], CurrentTCB := none, PENDSVSET := false }

/-- The function `PendSV_Trigger` (Kernel.cpp:19-21). -/
def PendSV_Trigger (k : Kernel) : Kernel :=
  { k with PENDSVSET := true }

/-- The function `SysTick_Handler_code` (Kernel.cpp:9-16). -/
def SysTick_Handler_code (k : Kernel) : Kernel :=
  if k.enabled = true ∧ k.PENDSVSET ≠ true then PendSV_Trigger k else k

/-- The loop of `RTOS::thread`, from index `i` on. -/
def threadScan (name : String) : List TCB → Nat → Option Nat
  | [], _ => none
  | t :: rest, i => if t.name = name then some i else threadScan name rest (i + 1)

/-- The function `RTOS::thread` (Kernel.h:144-149); `name` is the C string the
`const char*` argument denotes. -/
def thread (k : Kernel) (name : String) : Option Nat :=
  if name.length > MAX_THREAD_NAME_LEN then none else threadScan name k.threads 0

/-- The function `RTOS::self` (Kernel.h:151). -/
def self (k : Kernel) : Option Nat := k.CurrentTCB

/-- The function `RTOS::main` (Kernel.h:153): `threads[0]`. -/
def main (k : Kernel) : Option Nat :=
  match k.threads with
  | [] => none
  | _ :: _ => some 0

/-- Dereference of a `TCB*`. -/
def deref (k : Kernel) (p : Option Nat) : Option (Nat × TCB) :=
  match p with
  | none => none
  | some i =>
    match k.threads[i]? with
    | none => none
    | some t => some (i, t)

/-- The function `RTOS::init` (Kernel.h:105-119), as far as the registry goes. -/
def init (k : Kernel) (stack : Nat) : Kernel :=
  let k1 := { k with threads := k.threads ++ [TCB.new "_MAIN" .none .active 0 0 stack] }
  { k1 with CurrentTCB := thread k1 "_MAIN" }

/-- The C string that `name.c_str()` hands to a function taking `const char*`: the
characters of the `std::string` before its first NUL. -/
def c_str (name : String) : String :=
  String.mk (name.data.takeWhile (fun ch => decide (ch.toNat ≠ 0)))

/-- The function `RTOS::create` (Kernel.h:121-129): the length test is on the whole
`std::string`, the lookup `thread(name.c_str())` on its C string, and the TCB keeps the
whole `std::string`. -/
def create (k : Kernel) (name : String) (stackSize : Int) (_func : Nat)
    (priority : ThreadPriority) (stack : Nat) : Int × Kernel :=
  if name.length > MAX_THREAD_NAME_LEN then (-1, k)
  else
    match thread k (c_str name) with
    | none =>
      let tcb := TCB.new name priority .queued _func (toU32 stackSize) stack
      (0, { k with threads := k.threads ++ [tcb] })
    | some _ => (-1, k)

/-- The function `RTOS::onReturn` (Kernel.h:132-141). -/
def onReturn (k : Kernel) : Option Kernel :=
  match deref k k.CurrentTCB with
  | none => none
  | some (c, _) =>
    let k1 := { k with threads := k.threads.eraseIdx c }
    match main k1 with
    | none => none
    | some m => some (PendSV_Trigger { k1 with CurrentTCB := some m })

/-- The function `RTOS::block()` (Kernel.cpp:24-34). -/
def block (k : Kernel) : Option Kernel :=
  match deref k k.CurrentTCB with
  | none => none
  | some (c, t) =>
    some (PendSV_Trigger { k with threads := k.threads.set c { t with state := .blocked } })

/-- The function `RTOS::block(TCB*)` (Kernel.cpp:35-44). -/
def blockThread (k : Kernel) (thread : Option Nat) : Option Kernel :=
  match deref k thread with
  | none => none
  | some (i, t) =>
    some { k with threads := k.threads.set i { t with state := .blocked } }

/-- The function `RTOS::unblock` (Kernel.cpp:45-55). -/
def unblock (k : Kernel) (thread : Option Nat) : Option Kernel :=
  match deref k thread with
  | none => none
  | some (i, t) =>
    some (PendSV_Trigger { k with threads := k.threads.set i { t with state := .paused } })

/-- The function `RTOS::sleep` (Kernel.cpp:56-67); `millis` is the clock reading. -/
def sleep (k : Kernel) (msec : Nat) (millis : Nat) : Option Kernel :=
  match deref k k.CurrentTCB with
  | none => none
  | some (c, t) =>
    let t1 : TCB := { t with state := .sleeping }
    let t2 : TCB := { t1 with sleep := { t1.sleep with delay := msec % 2 ^ 32 } }
    let t3 : TCB := { t2 with sleep := { t2.sleep with start := millis % 2 ^ 32 } }
    some (PendSV_Trigger { k with threads := k.threads.set c t3 })

/-- The function `RTOS::yield` (Kernel.h:166). -/
def yield (k : Kernel) : Kernel := PendSV_Trigger k

/-- One iteration of the loop of `setActiveThread` (Kernel.cpp:81-87): `selected` is the
index and the TCB the pointer `selected` refers to, `t` is `threads[i]`. -/
def selectStep (selected : Nat × TCB) (i : Nat) (t : TCB) : Nat × TCB :=
  if t.state.toNat ≥ waiting then selected
  else if t.priority.toInt < selected.2.priority.toInt then (i, t)
  else if t.priority = selected.2.priority ∧ t.state = .paused ∧ selected.2.state = .queued
  then (i, t)
  else selected

/-- The loop of `setActiveThread` (Kernel.cpp:80-88) over `threads[i], threads[i+1], ...`. -/
def selectLoop : List TCB → Nat → Nat × TCB → Nat × TCB
  | [], _, selected => selected
  | t :: rest, i, selected => selectLoop rest (i + 1) (selectStep selected i t)

/-- The first statement of `setActiveThread` (Kernel.cpp:73) on the TCB that
`CurrentTCB` points to: `if (state == active) state = paused;`. -/
def demote (t : TCB) : TCB :=
  if t.state = .active then { t with state := .paused } else t

/-- The first statement of `setActiveThread` (Kernel.cpp:73) on the kernel state. -/
def demoteCurrent (k : Kernel) : Option Kernel :=
  match deref k k.CurrentTCB with
  | none => none
  | some (c, t) => some { k with threads := k.threads.set c (demote t) }

/-- The function `RTOS::setActiveThread` (Kernel.cpp:70-94): the pointer it returns and
the state it leaves. -/
def setActiveThread (k : Kernel) : Option (Nat × Kernel) :=
  match demoteCurrent k with
  | none => none
  | some k1 =>
    match k1.threads with
    | [] => none
    | t0 :: rest =>
      let selected := selectLoop rest 1 (0, t0)
      some (selected.1,
        { k1 with threads := k1.threads.set selected.1 { selected.2 with state := .active },
                  CurrentTCB := some selected.1 })

/-- The body of the loop of `updateThreads` (Kernel.cpp:99-105). -/
def updateThread (millis : Nat) (t : TCB) : TCB :=
  if t.state = .sleeping then
    if t.sleep.toBool millis then { t with state := .paused } else t
  else t

/-- The function `RTOS::updateThreads` (Kernel.cpp:96-108) at clock reading `millis`. -/
def updateThreads (k : Kernel) (millis : Nat) : Kernel :=
  { k with threads := k.threads.map (updateThread millis) }

/-- The function `SwitchContext` (Kernel.cpp:124-135): the `TCB*` it returns (as a
number) and the state it leaves. -/
def SwitchContext (k : Kernel) (millis : Nat) : Option (Nat × Kernel) :=
  setActiveThread (updateThreads k millis)

/-- The number of bytes `create` asks `malloc` for: the constructor call of Kernel.h:124
converts the `int stackSize` to the `uint32_t _stackSize` of `TCB::TCB`, which passes
`_stackSize + sizeof(stack_t)` to `malloc` (Kernel.h:91). -/
def create_mallocArg (stackSize : Int) : Nat := TCB.mallocArg (toU32 stackSize)

/-- The conversion `(uint32_t)p` of a `TCB*` that points into the registry: `address i`
is the address of the TCB object `threads[i]` points to. -/
def castU32 (address : Nat → Nat) (p : Nat) : Nat := address p % 2 ^ 32

/-- The `uint32_t` that `SwitchContext` returns (Kernel.cpp:128,134):
`(uint32_t)Sched->setActiveThread()`. -/
def SwitchContext_result (address : Nat → Nat) (k : Kernel) (millis : Nat) : Option Nat :=
  (SwitchContext k millis).map (fun r => castU32 address r.1)

/-- Every member of a TCB but its `state`. -/
def TCB.frame (t : TCB) : Nat × Nat × ThreadPriority × sleep_t × String × Nat :=
  (t.sp, t.func, t.priority, t.sleep, t.name, t.stack)

/-- A TCB with its sleep record cleared: `setActiveThread` reads no `sleep` member. -/
def TCB.clearSleep (t : TCB) : TCB := { t with sleep := { start := 0, delay := 0 } }

/-- The spec's predicate `is_runnable` (§4.3): the state is ready (`queued`), paused or
running (`active`). -/
def is_runnable : ThreadState → Bool
  | .active => true
  | .paused => true
  | .queued => true
  | .sleeping => false
  | .blocked => false

/-- A call a thread can make on the kernel (`create`, `block()`, `block(t)`,
`unblock(t)`, `sleep(ms)` at a clock reading, `yield()`), or a scheduler pass
(`SwitchContext` at a clock reading). -/
inductive Call where
  | create (name : String) (stackSize : Int) (_func : Nat) (priority : ThreadPriority)
      (stack : Nat)
  | block
  | blockThread (thread : Nat)
  | unblock (thread : Nat)
  | sleep (msec millis : Nat)
  | yield
  | SwitchContext (millis : Nat)
  deriving Repr

/-- The state a call leaves; `none` when it dereferences an invalid pointer. -/
def Call.apply (k : Kernel) : Call → Option Kernel
  | .create name stackSize _func priority stack =>
    some (RTOS.create k name stackSize _func priority stack).2
  | .block => RTOS.block k
  | .blockThread t => RTOS.blockThread k (some t)
  | .unblock t => RTOS.unblock k (some t)
  | .sleep msec millis => RTOS.sleep k msec millis
  | .yield => some (RTOS.yield k)
  | .SwitchContext millis => (RTOS.SwitchContext k millis).map Prod.snd

/-- The calls `block(t)` and `unblock(t)` are made on a member of the registry. -/
def Call.onMember (k : Kernel) : Call → Prop
  | .blockThread t => t < k.threads.length
  | .unblock t => t < k.threads.length
  | _ => True

/-- The call is one of the primitives, not a scheduler pass. -/
def Call.isPrimitive : Call → Prop
  | .SwitchContext _ => False
  | _ => True

/-- The state after a sequence of calls, made one after the other. -/
def run (k : Kernel) : List Call → Option Kernel
  | [] => some k
  | c :: cs => (c.apply k).bind (fun k1 => run k1 cs)

/-- The registry invariant of a running kernel: `CurrentTCB` points into the registry,
`threads[0]` is `_MAIN` with priority `none`, and no TCB other than the one `CurrentTCB`
points to is `active`. -/
def WellFormed (k : Kernel) : Prop :=
  ∃ c tc t0, k.CurrentTCB = some c ∧ k.threads[c]? = some tc ∧
    k.threads[0]? = some t0 ∧ t0.name = "_MAIN" ∧ t0.priority = ThreadPriority.none ∧
    ∀ i t, k.threads[i]? = some t → t.state = ThreadState.active → i = c

/-! ## Registry lookup and `create` -/

theorem getElem?_lt_length {l : List TCB} {i : Nat} {t : TCB} (h : l[i]? = some t) :
    i < l.length := by
  by_contra hn
  rw [List.getElem?_eq_none (by omega)] at h
  exact absurd h (by simp)

theorem threadScan_eq_none_iff (name : String) (l : List TCB) (i : Nat) :
    threadScan name l i = none ↔ ∀ t ∈ l, t.name ≠ name := by
  induction l generalizing i with
  | nil => simp [threadScan]
  | cons t rest ih =>
    by_cases h : t.name = name
    · simp [threadScan, h]
    · simp [threadScan, h, ih]

theorem threadScan_append_fresh (name : String) (l : List TCB) (t1 : TCB) (i : Nat)
    (h : ∀ t ∈ l, t.name ≠ name) (h1 : t1.name = name) :
    threadScan name (l ++ [t1]) i = some (i + l.length) := by
  induction l generalizing i with
  | nil => simp [threadScan, h1]
  | cons t rest ih =>
    have ht : t.name ≠ name := h t (by simp)
    have hr : ∀ t ∈ rest, t.name ≠ name := fun x hx => h x (by simp [hx])
    simp [threadScan, ht, ih (i + 1) hr]
    omega

theorem thread_eq_none_iff (k : Kernel) (name : String) :
    thread k name = none ↔
      name.length > MAX_THREAD_NAME_LEN ∨ ∀ t ∈ k.threads, t.name ≠ name := by
  unfold thread
  by_cases h : name.length > MAX_THREAD_NAME_LEN
  · simp [h]
  · simp [h, threadScan_eq_none_iff]

theorem c_str_length_le (name : String) : (c_str name).length ≤ name.length := by
  simp only [c_str, String.length]
  exact (List.takeWhile_prefix _).length_le

theorem create_fresh (k : Kernel) (name : String) (stackSize : Int) (_func : Nat)
    (priority : ThreadPriority) (stack : Nat)
    (hlen : name.length ≤ MAX_THREAD_NAME_LEN)
    (hfresh : ∀ t ∈ k.threads, t.name ≠ c_str name) :
    create k name stackSize _func priority stack =
      (0, { k with threads :=
        k.threads ++ [TCB.new name priority .queued _func (toU32 stackSize) stack] }) := by
  have hn : thread k (c_str name) = none :=
    (thread_eq_none_iff k (c_str name)).2 (Or.inr hfresh)
  have hl : ¬ name.length > MAX_THREAD_NAME_LEN := by omega
  simp [create, hl, hn]

theorem create_cases (k : Kernel) (name : String) (stackSize : Int) (_func : Nat)
    (priority : ThreadPriority) (stack : Nat) :
    create k name stackSize _func priority stack = (-1, k) ∨
    ((∀ t ∈ k.threads, t.name ≠ c_str name) ∧
      create k name stackSize _func priority stack =
        (0, { k with threads :=
          k.threads ++ [TCB.new name priority .queued _func (toU32 stackSize) stack] })) := by
  by_cases hl : name.length > MAX_THREAD_NAME_LEN
  · left; simp [create, hl]
  · cases hn : thread k (c_str name) with
    | some i => left; simp [create, hl, hn]
    | none =>
      right
      have hfresh : ∀ t ∈ k.threads, t.name ≠ c_str name := by
        rcases (thread_eq_none_iff k (c_str name)).1 hn with h | h
        · have := c_str_length_le name
          omega
        · exact h
      exact ⟨hfresh, create_fresh k name stackSize _func priority stack (by omega) hfresh⟩

/-! ## The selector -/

theorem is_runnable_iff (s : ThreadState) : is_runnable s = true ↔ s.toNat < waiting := by
  cases s <;> simp [is_runnable, ThreadState.toNat, waiting]

theorem selectStep_cases (sel : Nat × TCB) (i : Nat) (t : TCB) :
    selectStep sel i t = sel ∨
      (selectStep sel i t = (i, t) ∧ is_runnable t.state = true) := by
  unfold selectStep
  by_cases h1 : t.state.toNat ≥ waiting
  · simp [h1]
  · have hr : is_runnable t.state = true := (is_runnable_iff _).2 (by omega)
    simp only [h1, if_false]
    split_ifs <;> simp [hr]

theorem selectStep_priority_le (sel : Nat × TCB) (i : Nat) (t : TCB) :
    (selectStep sel i t).2.priority.toInt ≤ sel.2.priority.toInt := by
  unfold selectStep
  split_ifs with h1 h2 h3
  · exact le_refl _
  · exact le_of_lt h2
  · simp [h3.1]
  · exact le_refl _

theorem selectStep_priority_le_runnable (sel : Nat × TCB) (i : Nat) (t : TCB)
    (hr : is_runnable t.state = true) :
    (selectStep sel i t).2.priority.toInt ≤ t.priority.toInt := by
  have h1 : ¬ t.state.toNat ≥ waiting := by
    have := (is_runnable_iff _).1 hr
    omega
  unfold selectStep
  simp only [h1, if_false]
  split_ifs with h2 h3
  · exact le_refl _
  · exact le_refl _
  · simpa using h2

theorem selectLoop_spec (all : List TCB) (rest : List TCB) (i : Nat) (sel : Nat × TCB)
    (hrest : ∀ m, rest[m]? = all[i + m]?) (hsel : all[sel.1]? = some sel.2) :
    all[(selectLoop rest i sel).1]? = some (selectLoop rest i sel).2 ∧
    (selectLoop rest i sel = sel ∨
      (i ≤ (selectLoop rest i sel).1 ∧ is_runnable (selectLoop rest i sel).2.state = true)) ∧
    (selectLoop rest i sel).2.priority.toInt ≤ sel.2.priority.toInt ∧
    ∀ t ∈ rest, is_runnable t.state = true →
      (selectLoop rest i sel).2.priority.toInt ≤ t.priority.toInt := by
  induction rest generalizing i sel with
  | nil => simp [selectLoop, hsel]
  | cons t rest ih =>
    have ht : all[i]? = some t := by
      have := hrest 0
      simpa using this.symm
    have hrest1 : ∀ m, rest[m]? = all[i + 1 + m]? := by
      intro m
      have := hrest (m + 1)
      simp only [List.getElem?_cons_succ] at this
      rw [this]
      congr 1
      omega
    have hsel1 : all[(selectStep sel i t).1]? = some (selectStep sel i t).2 := by
      rcases selectStep_cases sel i t with h | ⟨h, _⟩
      · rw [h]; exact hsel
      · rw [h]; exact ht
    obtain ⟨a1, a2, a3, a4⟩ := ih (i + 1) (selectStep sel i t) hrest1 hsel1
    simp only [selectLoop]
    refine ⟨a1, ?_, ?_, ?_⟩
    · rcases a2 with h | ⟨h, hr⟩
      · rw [h]
        rcases selectStep_cases sel i t with h1 | ⟨h1, hr1⟩
        · left; exact h1
        · right; rw [h1]; exact ⟨le_refl _, hr1⟩
      · right; exact ⟨by omega, hr⟩
    · exact le_trans a3 (selectStep_priority_le sel i t)
    · intro x hx hr
      rcases List.mem_cons.1 hx with hxt | hxr
      · subst hxt
        exact le_trans a3 (selectStep_priority_le_runnable sel i x hr)
      · exact a4 x hxr hr

theorem demote_priority (t : TCB) : (demote t).priority = t.priority := by
  unfold demote; split_ifs <;> rfl

theorem demote_name (t : TCB) : (demote t).name = t.name := by
  unfold demote; split_ifs <;> rfl

theorem demote_runnable (t : TCB) : is_runnable (demote t).state = is_runnable t.state := by
  unfold demote; split_ifs with h
  · simp [h, is_runnable]
  · rfl

theorem demote_not_active (t : TCB) : (demote t).state ≠ .active := by
  unfold demote; split_ifs with h
  · simp
  · exact h

theorem demote_of_not_active (t : TCB) (h : t.state ≠ .active) : demote t = t := by
  unfold demote; simp [h]

theorem demote_set_active (t : TCB) :
    ({ demote t with state := .active } : TCB) = { t with state := .active } := by
  unfold demote; split_ifs <;> rfl

/-- The registry after the first statement of `setActiveThread`. -/
theorem demoted_getElem? (l : List TCB) (c : Nat) (tc : TCB) (hc : l[c]? = some tc)
    (j : Nat) (t : TCB) (hj : l[j]? = some t) :
    (l.set c (demote tc))[j]? = some (if j = c then demote t else t) := by
  have hlt : c < l.length := by
    by_contra h
    rw [List.getElem?_eq_none (by omega)] at hc
    exact absurd hc (by simp)
  rw [List.getElem?_set]
  by_cases h : c = j
  · subst h
    have : tc = t := by rw [hc] at hj; exact Option.some.inj hj
    simp [hlt, this]
  · have h2 : ¬ j = c := fun e => h e.symm
    simp [h, h2, hj]

theorem demoted_getElem?_inv (l : List TCB) (c : Nat) (tc : TCB) (hc : l[c]? = some tc)
    (j : Nat) (t1 : TCB) (hj : (l.set c (demote tc))[j]? = some t1) :
    ∃ t, l[j]? = some t ∧ t1 = (if j = c then demote t else t) := by
  have hlen : j < l.length := by
    by_contra h
    rw [List.getElem?_eq_none (by simp; omega)] at hj
    exact absurd hj (by simp)
  obtain ⟨t, ht⟩ : ∃ t, l[j]? = some t := ⟨l[j], List.getElem?_eq_getElem hlen⟩
  refine ⟨t, ht, ?_⟩
  rw [demoted_getElem? l c tc hc j t ht] at hj
  exact (Option.some.inj hj).symm

/-- What `setActiveThread` returns and leaves, in terms of the registry `th1` after its
first statement: the returned index `r` holds `tr` there, `tr` is at index 0 or runnable,
its priority value is at most that of `threads[0]` and of every runnable TCB, and the
final registry is `th1` with `tr` made `active`. -/
theorem setActiveThread_spec (k : Kernel) (c : Nat) (tc : TCB)
    (hcur : k.CurrentTCB = some c) (hc : k.threads[c]? = some tc) :
    ∃ r tr, setActiveThread k =
        some (r, { k with threads := (k.threads.set c (demote tc)).set r
                                        { tr with state := .active },
                          CurrentTCB := some r }) ∧
      (k.threads.set c (demote tc))[r]? = some tr ∧
      (r = 0 ∨ (1 ≤ r ∧ is_runnable tr.state = true)) ∧
      ∀ j t, (k.threads.set c (demote tc))[j]? = some t →
        (j = 0 ∨ is_runnable t.state = true) → tr.priority.toInt ≤ t.priority.toInt := by
  have hd : demoteCurrent k = some { k with threads := k.threads.set c (demote tc) } := by
    simp [demoteCurrent, deref, hcur, hc]
  have hlt : c < k.threads.length := by
    by_contra h
    rw [List.getElem?_eq_none (by omega)] at hc
    exact absurd hc (by simp)
  cases hth : k.threads.set c (demote tc) with
  | nil =>
    have : (k.threads.set c (demote tc)).length = 0 := by rw [hth]; rfl
    rw [List.length_set] at this
    omega
  | cons t0 rest =>
    have hrest : ∀ m, rest[m]? = (t0 :: rest)[1 + m]? := by
      intro m
      rw [Nat.add_comm, List.getElem?_cons_succ]
    have hsel : (t0 :: rest)[((0, t0) : Nat × TCB).1]? = some ((0, t0) : Nat × TCB).2 := by
      simp
    obtain ⟨a1, a2, a3, a4⟩ := selectLoop_spec (t0 :: rest) rest 1 (0, t0) hrest hsel
    refine ⟨(selectLoop rest 1 (0, t0)).1, (selectLoop rest 1 (0, t0)).2, ?_, a1, ?_, ?_⟩
    · simp [setActiveThread, hd, hth]
    · rcases a2 with h | ⟨h1, h2⟩
      · left; rw [h]
      · right; exact ⟨h1, h2⟩
    · intro j t hj hjr
      cases j with
      | zero =>
        simp at hj
        subst hj
        exact a3
      | succ n =>
        rw [List.getElem?_cons_succ] at hj
        have hmem : t ∈ rest := List.getElem?_mem hj
        rcases hjr with h | h
        · omega
        · exact a4 t hmem h

theorem priority_none_of_le (p : ThreadPriority)
    (h : ThreadPriority.none.toInt ≤ p.toInt) : p = ThreadPriority.none := by
  cases p <;> simp [ThreadPriority.toInt] at h ⊢

/-! ## Timers -/

theorem sub32_of_le (now start : Nat) (hnow : now < 2 ^ 32) (hle : start ≤ now) :
    sub32 now start = now - start := by
  unfold sub32
  have hs : start < 2 ^ 32 := by omega
  rw [Nat.mod_eq_of_lt hnow, Nat.mod_eq_of_lt hs]
  have : now + (2 ^ 32 - start) = (now - start) + 2 ^ 32 := by omega
  rw [this, Nat.add_mod_right]
  exact Nat.mod_eq_of_lt (by omega)

theorem updateThread_name (now : Nat) (t : TCB) : (updateThread now t).name = t.name := by
  unfold updateThread; split_ifs <;> rfl

theorem updateThread_priority (now : Nat) (t : TCB) :
    (updateThread now t).priority = t.priority := by
  unfold updateThread; split_ifs <;> rfl

theorem updateThread_active (now : Nat) (t : TCB)
    (h : (updateThread now t).state = .active) : t.state = .active := by
  unfold updateThread at h
  split_ifs at h with h1 h2 <;> exact h

theorem updateThread_of_not_expired (now : Nat) (t : TCB)
    (h : t.state = .blocked ∨ (t.state = .sleeping ∧ t.sleep.toBool now = false)) :
    updateThread now t = t := by
  unfold updateThread
  rcases h with h | ⟨h1, h2⟩
  · simp [h]
  · simp [h1, h2]

theorem updateThreads_getElem? (k : Kernel) (now i : Nat) :
    (updateThreads k now).threads[i]? = (k.threads[i]?).map (updateThread now) := by
  simp [updateThreads, List.getElem?_map]

/-! ## The registry invariant -/

/-- Overwriting one TCB by one of the same name and priority that is not `active` keeps
the registry invariant; `enabled` and the pending bit play no part in it. -/
theorem wellFormed_set (k : Kernel) (i : Nat) (t t1 : TCB) (e p : Bool)
    (hk : WellFormed k) (hi : k.threads[i]? = some t)
    (hn : t1.name = t.name) (hp : t1.priority = t.priority) (hs : t1.state ≠ .active) :
    WellFormed { enabled := e, threads := k.threads.set i t1,
                 CurrentTCB := k.CurrentTCB, PENDSVSET := p } := by
  obtain ⟨c, tc, t0, hcur, hc, h0, hname, hprio, hact⟩ := hk
  have hilt := getElem?_lt_length hi
  have hget : ∀ j, (k.threads.set i t1)[j]? = if i = j then some t1 else k.threads[j]? := by
    intro j
    rw [List.getElem?_set]
    by_cases h : i = j
    · subst h; simp [hilt]
    · simp [h]
  by_cases hic : i = c
  · by_cases hi0 : i = 0
    · refine ⟨c, t1, t1, hcur, ?_, ?_, ?_, ?_, ?_⟩
      · simp only; rw [hget]; simp [hic]
      · simp only; rw [hget]; simp [hi0]
      · rw [hn]; rw [hi0, h0] at hi; rw [← Option.some.inj hi]; exact hname
      · rw [hp]; rw [hi0, h0] at hi; rw [← Option.some.inj hi]; exact hprio
      · intro j x hj hx
        simp only at hj
        rw [hget] at hj
        by_cases hij : i = j
        · omega
        · simp [hij] at hj; exact hact j x hj hx
    · refine ⟨c, t1, t0, hcur, ?_, ?_, hname, hprio, ?_⟩
      · simp only; rw [hget]; simp [hic]
      · simp only; rw [hget]; simp [hi0, h0]
      · intro j x hj hx
        simp only at hj
        rw [hget] at hj
        by_cases hij : i = j
        · omega
        · simp [hij] at hj; exact hact j x hj hx
  · have hact1 : ∀ j x, (k.threads.set i t1)[j]? = some x → x.state = .active → j = c := by
      intro j x hj hx
      rw [hget] at hj
      by_cases hij : i = j
      · simp [hij] at hj; rw [← hj] at hx; exact absurd hx hs
      · simp [hij] at hj; exact hact j x hj hx
    have hc1 : (k.threads.set i t1)[c]? = some tc := by rw [hget]; simp [hic, hc]
    by_cases hi0 : i = 0
    · refine ⟨c, tc, t1, hcur, hc1, ?_, ?_, ?_, hact1⟩
      · simp only; rw [hget]; simp [hi0]
      · rw [hn]; rw [hi0, h0] at hi; rw [← Option.some.inj hi]; exact hname
      · rw [hp]; rw [hi0, h0] at hi; rw [← Option.some.inj hi]; exact hprio
    · refine ⟨c, tc, t0, hcur, hc1, ?_, hname, hprio, hact1⟩
      simp only; rw [hget]; simp [hi0, h0]

theorem wellFormed_init (stack : Nat) : WellFormed (init startup stack) := by
  refine ⟨0, TCB.new "_MAIN" .none .active 0 0 stack, TCB.new "_MAIN" .none .active 0 0 stack,
    ?_, ?_, ?_, rfl, rfl, ?_⟩
  · simp [init, startup, thread, threadScan, TCB.new, MAX_THREAD_NAME_LEN]
    decide
  · simp [init, startup]
  · simp [init, startup]
  · intro i t hi _
    have := getElem?_lt_length hi
    simp [init, startup] at this
    exact this

theorem wellFormed_append (k : Kernel) (t1 : TCB) (hk : WellFormed k)
    (hs : t1.state ≠ .active) :
    WellFormed { k with threads := k.threads ++ [t1] } := by
  obtain ⟨c, tc, t0, hcur, hc, h0, hname, hprio, hact⟩ := hk
  have hclt := getElem?_lt_length hc
  have h0lt := getElem?_lt_length h0
  refine ⟨c, tc, t0, hcur, ?_, ?_, hname, hprio, ?_⟩
  · simp only; rw [List.getElem?_append_left hclt]; exact hc
  · simp only; rw [List.getElem?_append_left h0lt]; exact h0
  · intro j x hj hx
    simp only at hj
    by_cases hjl : j < k.threads.length
    · rw [List.getElem?_append_left hjl] at hj
      exact hact j x hj hx
    · rw [List.getElem?_append_right (by omega)] at hj
      have hlt := getElem?_lt_length hj
      simp at hlt
      have : j - k.threads.length = 0 := by omega
      rw [this] at hj
      simp at hj
      rw [← hj] at hx
      exact absurd hx hs

theorem wellFormed_updateThreads (k : Kernel) (now : Nat) (hk : WellFormed k) :
    WellFormed (updateThreads k now) := by
  obtain ⟨c, tc, t0, hcur, hc, h0, hname, hprio, hact⟩ := hk
  refine ⟨c, updateThread now tc, updateThread now t0, hcur, ?_, ?_, ?_, ?_, ?_⟩
  · rw [updateThreads_getElem?, hc]; rfl
  · rw [updateThreads_getElem?, h0]; rfl
  · rw [updateThread_name]; exact hname
  · rw [updateThread_priority]; exact hprio
  · intro j x hj hx
    rw [updateThreads_getElem?] at hj
    cases hk : k.threads[j]? with
    | none => rw [hk] at hj; simp at hj
    | some t =>
      rw [hk] at hj
      simp at hj
      rw [← hj] at hx
      exact hact j t hk (updateThread_active now t hx)

/-- From a state that satisfies the registry invariant `setActiveThread` returns; the
TCB it returns is `CurrentTCB` and `active`, no other TCB is `active`, and the registry
invariant holds again. -/
theorem setActiveThread_wellFormed (k : Kernel) (hk : WellFormed k) :
    ∃ r k1, setActiveThread k = some (r, k1) ∧ k1.CurrentTCB = some r ∧
      (∃ t, k1.threads[r]? = some t ∧ t.state = .active) ∧
      (∀ i t, k1.threads[i]? = some t → t.state = .active → i = r) ∧
      WellFormed k1 := by
  obtain ⟨c, tc, t0, hcur, hc, h0, hname, hprio, hact⟩ := hk
  obtain ⟨r, tr, hres, htr, _, _⟩ := setActiveThread_spec k c tc hcur hc
  have hrlt : r < (k.threads.set c (demote tc)).length := getElem?_lt_length htr
  have hget : ∀ j, ((k.threads.set c (demote tc)).set r { tr with state := .active })[j]? =
      if r = j then some { tr with state := .active }
      else (k.threads.set c (demote tc))[j]? := by
    intro j
    rw [List.getElem?_set]
    by_cases h : r = j
    · subst h; rw [if_pos rfl, if_pos hrlt, if_pos rfl]
    · simp [h]
  have hnoact : ∀ (j : Nat) (x : TCB),
      (k.threads.set c (demote tc))[j]? = some x → x.state ≠ ThreadState.active := by
    intro j x hj
    obtain ⟨t, ht, hx⟩ := demoted_getElem?_inv k.threads c tc hc j x hj
    rw [hx]
    split_ifs with hjc
    · exact demote_not_active t
    · intro ha
      exact hjc (hact j t ht ha)
  have huniq : ∀ (j : Nat) (x : TCB),
      ((k.threads.set c (demote tc)).set r { tr with state := .active })[j]? = some x →
      x.state = .active → j = r := by
    intro j x hj hx
    rw [hget] at hj
    by_cases h : r = j
    · exact h.symm
    · simp [h] at hj
      exact absurd hx (hnoact j x hj)
  have h01 := demoted_getElem? k.threads c tc hc 0 t0 h0
  refine ⟨r, _, hres, rfl, ⟨{ tr with state := .active }, ?_, rfl⟩, huniq, ?_⟩
  · simp only; rw [hget]; simp
  · refine ⟨r, { tr with state := .active },
      (if r = 0 then { tr with state := .active } else (if 0 = c then demote t0 else t0)),
      rfl, ?_, ?_, ?_, ?_, huniq⟩
    · simp only; rw [hget]; simp
    · simp only; rw [hget]
      by_cases h : r = 0
      · simp [h]
      · simp [h, h01]
    · by_cases h : r = 0
      · simp only [h, if_true]
        rw [h, h01] at htr
        rw [← Option.some.inj htr]
        split_ifs
        · rw [demote_name]; exact hname
        · exact hname
      · simp only [h, if_false]
        split_ifs
        · rw [demote_name]; exact hname
        · exact hname
    · by_cases h : r = 0
      · simp only [h, if_true]
        rw [h, h01] at htr
        rw [← Option.some.inj htr]
        split_ifs
        · rw [demote_priority]; exact hprio
        · exact hprio
      · simp only [h, if_false]
        split_ifs
        · rw [demote_priority]; exact hprio
        · exact hprio

theorem deref_eq_some {k : Kernel} {p : Option Nat} {i : Nat} {t : TCB}
    (h : deref k p = some (i, t)) : p = some i ∧ k.threads[i]? = some t := by
  unfold deref at h
  cases p with
  | none => simp at h
  | some j =>
    simp only at h
    cases hj : k.threads[j]? with
    | none => rw [hj] at h; simp at h
    | some x =>
      rw [hj] at h
      simp at h
      obtain ⟨h1, h2⟩ := h
      subst h1; subst h2
      exact ⟨rfl, hj⟩

theorem deref_of_getElem? {k : Kernel} {i : Nat} {t : TCB} (h : k.threads[i]? = some t) :
    deref k (some i) = some (i, t) := by
  simp [deref, h]

/-- Every call keeps the registry invariant. -/
theorem wellFormed_apply (k k1 : Kernel) (c : Call) (hk : WellFormed k)
    (h : c.apply k = some k1) : WellFormed k1 := by
  cases c with
  | create name stackSize _func priority stack =>
    simp only [Call.apply, Option.some.injEq] at h
    rcases create_cases k name stackSize _func priority stack with hc | ⟨_, hc⟩
    · rw [hc] at h; rw [← h]; exact hk
    · rw [hc] at h; rw [← h]
      exact wellFormed_append k _ hk (by simp [TCB.new])
  | block =>
    simp only [Call.apply, block] at h
    cases hd : deref k k.CurrentTCB with
    | none => rw [hd] at h; simp at h
    | some ct =>
      obtain ⟨i, t⟩ := ct
      rw [hd] at h
      simp only [Option.some.injEq] at h
      rw [← h]
      exact wellFormed_set k i t _ k.enabled true hk (deref_eq_some hd).2 rfl rfl (by simp)
  | blockThread th =>
    simp only [Call.apply, blockThread] at h
    cases hd : deref k (some th) with
    | none => rw [hd] at h; simp at h
    | some ct =>
      obtain ⟨i, t⟩ := ct
      rw [hd] at h
      simp only [Option.some.injEq] at h
      rw [← h]
      exact wellFormed_set k i t _ k.enabled k.PENDSVSET hk (deref_eq_some hd).2 rfl rfl
        (by simp)
  | unblock th =>
    simp only [Call.apply, unblock] at h
    cases hd : deref k (some th) with
    | none => rw [hd] at h; simp at h
    | some ct =>
      obtain ⟨i, t⟩ := ct
      rw [hd] at h
      simp only [Option.some.injEq] at h
      rw [← h]
      exact wellFormed_set k i t _ k.enabled true hk (deref_eq_some hd).2 rfl rfl (by simp)
  | sleep msec millis =>
    simp only [Call.apply, sleep] at h
    cases hd : deref k k.CurrentTCB with
    | none => rw [hd] at h; simp at h
    | some ct =>
      obtain ⟨i, t⟩ := ct
      rw [hd] at h
      simp only [Option.some.injEq] at h
      rw [← h]
      exact wellFormed_set k i t _ k.enabled true hk (deref_eq_some hd).2 rfl rfl (by simp)
  | yield =>
    simp only [Call.apply, Option.some.injEq] at h
    rw [← h]
    obtain ⟨c, tc, t0, h1, h2, h3, h4, h5, h6⟩ := hk
    exact ⟨c, tc, t0, h1, h2, h3, h4, h5, h6⟩
  | SwitchContext millis =>
    simp only [Call.apply, SwitchContext] at h
    obtain ⟨r, k2, hres, _, _, _, hwf⟩ :=
      setActiveThread_wellFormed (updateThreads k millis) (wellFormed_updateThreads k millis hk)
    rw [hres] at h
    simp only [Option.map_some', Option.some.injEq] at h
    rw [← h]
    exact hwf

theorem wellFormed_run (calls : List Call) (k k1 : Kernel) (hk : WellFormed k)
    (h : run k calls = some k1) : WellFormed k1 := by
  induction calls generalizing k with
  | nil =>
    simp only [run, Option.some.injEq] at h
    rw [← h]; exact hk
  | cons c cs ih =>
    simp only [run] at h
    cases hc : c.apply k with
    | none => rw [hc] at h; simp at h
    | some k2 =>
      rw [hc] at h
      simp only [Option.some_bind] at h
      exact ih k2 (wellFormed_apply k k2 c hk hc) h

/-- From a state that satisfies the registry invariant, every call that is made on a
member of the registry returns. -/
theorem apply_returns (k : Kernel) (c : Call) (hk : WellFormed k) (hm : c.onMember k) :
    ∃ k1, c.apply k = some k1 := by
  obtain ⟨cur, tc, _, hcur, hc, _⟩ := id hk
  have hdc : deref k k.CurrentTCB = some (cur, tc) := by
    rw [hcur]; exact deref_of_getElem? hc
  cases c with
  | create name stackSize _func priority stack => exact ⟨_, rfl⟩
  | block => simp [Call.apply, block, hdc]
  | blockThread th =>
    simp only [Call.onMember] at hm
    have hd := deref_of_getElem? (List.getElem?_eq_getElem hm)
    simp [Call.apply, blockThread, hd]
  | unblock th =>
    simp only [Call.onMember] at hm
    have hd := deref_of_getElem? (List.getElem?_eq_getElem hm)
    simp [Call.apply, unblock, hd]
  | sleep msec millis => simp [Call.apply, sleep, hdc]
  | yield => exact ⟨_, rfl⟩
  | SwitchContext millis =>
    obtain ⟨r, k2, hres, _⟩ :=
      setActiveThread_wellFormed (updateThreads k millis)
        (wellFormed_updateThreads k millis hk)
    exact ⟨k2, by simp [Call.apply, SwitchContext, hres]⟩

/-! ## Claims C1 to C5: the selector and the scheduler pass -/

/-- C1: when `a` and `b` are runnable TCBs of the registry and `a.priority` is strictly
more urgent (numerically lower) than `b.priority`, `setActiveThread` returns, and what it
returns is not `b`. -/
theorem setActiveThread_never_returns_less_urgent (k : Kernel) (c : Nat) (tc : TCB)
    (i j : Nat) (a b : TCB)
    (hcur : k.CurrentTCB = some c) (hc : k.threads[c]? = some tc)
    (ha : k.threads[i]? = some a) (hb : k.threads[j]? = some b)
    (hra : is_runnable a.state = true) (_hrb : is_runnable b.state = true)
    (hlt : a.priority.toInt < b.priority.toInt) :
    ∃ r k1, setActiveThread k = some (r, k1) ∧ r ≠ j := by
  obtain ⟨r, tr, hres, htr, _, hmin⟩ := setActiveThread_spec k c tc hcur hc
  refine ⟨r, _, hres, ?_⟩
  intro hrj
  subst hrj
  have ha1 := demoted_getElem? k.threads c tc hc i a ha
  have hb1 := demoted_getElem? k.threads c tc hc r b hb
  rw [htr] at hb1
  have hle := hmin i _ ha1 (Or.inr (by
    split_ifs
    · rw [demote_runnable]; exact hra
    · exact hra))
  have e1 : tr.priority = b.priority := by
    rw [Option.some.inj hb1]
    split_ifs
    · exact demote_priority b
    · rfl
  have e2 : (if i = c then demote a else a).priority = a.priority := by
    split_ifs
    · exact demote_priority a
    · rfl
  rw [e1, e2] at hle
  omega

/-- C1 at a concrete input: `A` (`high`) and `B` (`normal`) both ready; `B`, at index 2,
is not returned. -/
theorem setActiveThread_never_returns_less_urgent_witness :
    ∃ r k1,
      setActiveThread (create (create (init startup 0) "A" 256 7 .high 4096).2
        "B" 256 8 .normal 8192).2 = some (r, k1) ∧ r ≠ 2 :=
  setActiveThread_never_returns_less_urgent
    (create (create (init startup 0) "A" 256 7 .high 4096).2 "B" 256 8 .normal 8192).2
    0 _ 1 2 (TCB.new "A" .high .queued 7 256 4096) (TCB.new "B" .normal .queued 8 256 8192)
    rfl rfl rfl rfl rfl rfl (by decide)

/-- C2: in every state that a finite sequence of `create`, `block()`, `block(t)`,
`unblock(t)`, `sleep(ms)`, `yield()` calls and scheduler passes reaches from the state
`init()` produces, every further call on a registry member returns, and a scheduler pass
(`SwitchContext`) returns a TCB that is `CurrentTCB` and `active`, while no other TCB of
the registry is `active`. -/
theorem exactly_one_active_after_pass (stack : Nat) (calls : List Call) (k : Kernel)
    (h : run (init startup stack) calls = some k) :
    (∀ c : Call, c.onMember k → ∃ k1, c.apply k = some k1) ∧
    ∀ now : Nat, ∃ r k1, SwitchContext k now = some (r, k1) ∧ k1.CurrentTCB = some r ∧
      (∃ t, k1.threads[r]? = some t ∧ t.state = ThreadState.active) ∧
      ∀ i t, k1.threads[i]? = some t → t.state = ThreadState.active → i = r := by
  have hk : WellFormed k := wellFormed_run calls _ k (wellFormed_init stack) h
  refine ⟨fun c hm => apply_returns k c hk hm, ?_⟩
  intro now
  obtain ⟨r, k1, hres, h1, h2, h3, _⟩ :=
    setActiveThread_wellFormed (updateThreads k now) (wellFormed_updateThreads k now hk)
  exact ⟨r, k1, hres, h1, h2, h3⟩

/-- C2 at a concrete input: a run with a `create`, two passes, a `sleep`, an `unblock`
and a `yield`. -/
theorem exactly_one_active_after_pass_witness :
    ∃ k, run (init startup 0)
        [Call.create "A" 256 7 .high 4096, Call.SwitchContext 0, Call.sleep 50 0,
         Call.SwitchContext 10, Call.unblock 1, Call.yield] = some k ∧
      (∀ c : Call, c.onMember k → ∃ k1, c.apply k = some k1) ∧
      ∀ now : Nat, ∃ r k1, SwitchContext k now = some (r, k1) ∧ k1.CurrentTCB = some r ∧
        (∃ t, k1.threads[r]? = some t ∧ t.state = ThreadState.active) ∧
        ∀ i t, k1.threads[i]? = some t → t.state = ThreadState.active → i = r :=
  ⟨_, rfl, exactly_one_active_after_pass 0
    [Call.create "A" 256 7 .high 4096, Call.SwitchContext 0, Call.sleep 50 0,
     Call.SwitchContext 10, Call.unblock 1, Call.yield] _ rfl⟩

/-- C3 (as written, refuted): `_MAIN` calls `sleep(1000)` at clock reading 0 in the
state `init()` leaves; at the scheduler pass at the same clock reading `_MAIN` is still
`sleeping`, and `setActiveThread` (alone, and inside `SwitchContext`) returns it and
leaves it `active`. -/
theorem sleeping_main_is_selected :
    ∃ k k1, sleep (init startup 0) 1000 0 = some k ∧
      (k.threads[0]?).map TCB.state = some ThreadState.sleeping ∧
      setActiveThread k = some (0, k1) ∧
      SwitchContext k 0 = some (0, k1) ∧
      (k1.threads[0]?).map TCB.state = some ThreadState.active := by
  refine ⟨_, _, rfl, ?_, rfl, ?_, ?_⟩ <;> decide

/-- C3 (amended): `setActiveThread` returns; the TCB it returns is `threads[0]` (`_MAIN`)
or a TCB that was neither `sleeping` nor `blocked`. A TCB at an index from 1 on that is
`blocked`, or `sleeping` with a timer that has not expired at the clock reading of the
pass, is not returned by `SwitchContext` and is left as it was. -/
theorem setActiveThread_returns_main_or_runnable (k : Kernel) (c : Nat) (tc : TCB)
    (hcur : k.CurrentTCB = some c) (hc : k.threads[c]? = some tc) :
    (∃ r k1, setActiveThread k = some (r, k1) ∧
      (r = 0 ∨ ∃ t, k.threads[r]? = some t ∧
        t.state ≠ ThreadState.sleeping ∧ t.state ≠ ThreadState.blocked)) ∧
    ∀ (now j : Nat) (t : TCB), 1 ≤ j → k.threads[j]? = some t →
      (t.state = ThreadState.blocked ∨
        (t.state = ThreadState.sleeping ∧ t.sleep.toBool now = false)) →
      ∃ r k1, SwitchContext k now = some (r, k1) ∧ r ≠ j ∧ k1.threads[j]? = some t := by
  constructor
  · obtain ⟨r, tr, hres, htr, hr, _⟩ := setActiveThread_spec k c tc hcur hc
    refine ⟨r, _, hres, ?_⟩
    rcases hr with h | ⟨_, h2⟩
    · left; exact h
    · right
      obtain ⟨t, ht, hte⟩ := demoted_getElem?_inv k.threads c tc hc r tr htr
      have hrun : is_runnable t.state = true := by
        rw [hte] at h2
        split_ifs at h2
        · rw [demote_runnable] at h2; exact h2
        · exact h2
      refine ⟨t, ht, ?_, ?_⟩ <;> intro hs <;> simp [hs, is_runnable] at hrun
  · intro now j t hj1 hj hst
    have hcur1 : (updateThreads k now).CurrentTCB = some c := hcur
    have hc1 : (updateThreads k now).threads[c]? = some (updateThread now tc) := by
      rw [updateThreads_getElem?, hc]; rfl
    have hj1t : (updateThreads k now).threads[j]? = some t := by
      rw [updateThreads_getElem?, hj]
      simp [updateThread_of_not_expired now t hst]
    obtain ⟨r, tr, hres, htr, hr, _⟩ :=
      setActiveThread_spec (updateThreads k now) c (updateThread now tc) hcur1 hc1
    have hnr : is_runnable t.state = false := by
      rcases hst with h | ⟨h, _⟩ <;> simp [h, is_runnable]
    have hna : t.state ≠ .active := by
      rcases hst with h | ⟨h, _⟩ <;> simp [h]
    have hth1 := demoted_getElem? (updateThreads k now).threads c (updateThread now tc) hc1
      j t hj1t
    have hsame : (if j = c then demote t else t) = t := by
      split_ifs
      · exact demote_of_not_active t hna
      · rfl
    rw [hsame] at hth1
    have hrj : r ≠ j := by
      intro e
      subst e
      rcases hr with h | ⟨_, h2⟩
      · omega
      · rw [htr] at hth1
        rw [Option.some.inj hth1, hnr] at h2
        exact absurd h2 (by simp)
    refine ⟨r, _, hres, hrj, ?_⟩
    simp only
    rw [List.getElem?_set_ne hrj]
    exact hth1

/-- C3 (amended) at a concrete input: `_MAIN` is current and thread `A`, of priority
`high`, has been blocked by `block(t)`; the pass at clock reading 5 returns `_MAIN`, not
`A`, and leaves `A` blocked. -/
theorem setActiveThread_returns_main_or_runnable_witness :
    ∃ k r k1, blockThread (create (init startup 0) "A" 256 7 .high 4096).2 (some 1) = some k ∧
      k.CurrentTCB = some 0 ∧
      k.threads[1]? = some (TCB.new "A" .high .blocked 7 256 4096) ∧
      SwitchContext k 5 = some (r, k1) ∧ r ≠ 1 ∧
      k1.threads[1]? = some (TCB.new "A" .high .blocked 7 256 4096) := by
  obtain ⟨r, k1, h1, h2, h3⟩ :=
    (setActiveThread_returns_main_or_runnable
      { enabled := false
        threads := [TCB.new "_MAIN" .none .active 0 0 0, TCB.new "A" .high .blocked 7 256 4096]
        CurrentTCB := some 0
        PENDSVSET := false }
      0 (TCB.new "_MAIN" .none .active 0 0 0) rfl rfl).2
      5 1 (TCB.new "A" .high .blocked 7 256 4096) (by decide) rfl (Or.inl rfl)
  exact ⟨_, r, k1, rfl, rfl, rfl, h1, h2, h3⟩

/-- C4: when every TCB at an index from 1 on is `blocked` or `sleeping`,
`setActiveThread` returns `threads[0]` (`_MAIN`), makes it `active` and makes it
`CurrentTCB`. -/
theorem setActiveThread_all_blocked_returns_main (k : Kernel) (c : Nat) (tc t0 : TCB)
    (hcur : k.CurrentTCB = some c) (hc : k.threads[c]? = some tc)
    (h0 : k.threads[0]? = some t0) (_hname : t0.name = "_MAIN")
    (hall : ∀ i t, 1 ≤ i → k.threads[i]? = some t →
      t.state = .blocked ∨ t.state = .sleeping) :
    ∃ k1, setActiveThread k = some (0, k1) ∧ k1.CurrentTCB = some 0 ∧
      k1.threads[0]? = some { t0 with state := .active } ∧
      main k1 = some 0 := by
  obtain ⟨r, tr, hres, htr, hr, _⟩ := setActiveThread_spec k c tc hcur hc
  have hr0 : r = 0 := by
    rcases hr with h | ⟨h1, h2⟩
    · exact h
    · exfalso
      obtain ⟨t, ht, hte⟩ := demoted_getElem?_inv k.threads c tc hc r tr htr
      have hrun : is_runnable t.state = true := by
        rw [hte] at h2
        split_ifs at h2
        · rw [demote_runnable] at h2; exact h2
        · exact h2
      rcases hall r t h1 ht with h | h <;> simp [h, is_runnable] at hrun
  subst hr0
  have h01 := demoted_getElem? k.threads c tc hc 0 t0 h0
  rw [htr] at h01
  have hlen : 0 < (k.threads.set c (demote tc)).length := by
    by_contra h
    rw [List.getElem?_eq_none (by omega)] at htr
    exact absurd htr (by simp)
  have hthreads : ((k.threads.set c (demote tc)).set 0 { tr with state := .active })[0]? =
      some { t0 with state := .active } := by
    rw [List.getElem?_set_self hlen]
    rw [Option.some.inj h01]
    split_ifs
    · rw [demote_set_active]
    · rfl
  refine ⟨_, hres, rfl, hthreads, ?_⟩
  simp only [main]
  cases hl : (k.threads.set c (demote tc)).set 0 { tr with state := .active } with
  | nil => rw [hl] at hthreads; simp at hthreads
  | cons x xs => rfl

/-- C4 at a concrete input: the only other thread, `A`, is blocked. -/
theorem setActiveThread_all_blocked_returns_main_witness :
    ∃ k k1, blockThread (create (init startup 0) "A" 256 7 .high 4096).2 (some 1) = some k ∧
      setActiveThread k = some (0, k1) ∧ k1.CurrentTCB = some 0 ∧
      k1.threads[0]? = some (TCB.new "_MAIN" .none .active 0 0 0) ∧ main k1 = some 0 := by
  obtain ⟨k1, h1, h2, h3, h4⟩ := setActiveThread_all_blocked_returns_main
    { enabled := false
      threads := [TCB.new "_MAIN" .none .active 0 0 0, TCB.new "A" .high .blocked 7 256 4096]
      CurrentTCB := some 0
      PENDSVSET := false }
    0 (TCB.new "_MAIN" .none .active 0 0 0) (TCB.new "_MAIN" .none .active 0 0 0)
    rfl rfl rfl rfl
    (by
      intro i t hi h
      have hlt : i < 2 := getElem?_lt_length h
      have hi1 : i = 1 := by omega
      subst hi1
      have ht : some (TCB.new "A" .high .blocked 7 256 4096) = some t := h
      rw [← Option.some.inj ht]
      left; rfl)
  exact ⟨_, k1, rfl, h1, h2, h3, h4⟩

/-- C5 (as written, refuted): after `init()` and the call of the Basic example,
`create("My_Main_Thread", 256, f, none)`, the TCB at index 1 is ready (`queued`, hence
runnable) and `setActiveThread` returns `_MAIN` (index 0). -/
theorem main_selected_while_other_runnable :
    ∃ k1, (create (init startup 0) "My_Main_Thread" 256 7 .none 4096).1 = 0 ∧
      ((create (init startup 0) "My_Main_Thread" 256 7 .none 4096).2.threads[1]?).map
        (fun t => (t.state, is_runnable t.state)) = some (ThreadState.queued, true) ∧
      setActiveThread (create (init startup 0) "My_Main_Thread" 256 7 .none 4096).2 =
        some (0, k1) := by
  refine ⟨_, ?_, ?_, rfl⟩ <;> decide

/-- C5 (amended): in every state reached from `init()`, `setActiveThread` returns, and
when it returns `_MAIN` (index 0) every TCB at an index from 1 on that is runnable has
priority `none`: `_MAIN` is selected only when no other runnable thread has a priority
strictly more urgent than `_MAIN`. -/
theorem main_selected_only_over_priority_none (stack : Nat) (calls : List Call) (k : Kernel)
    (h : run (init startup stack) calls = some k) :
    ∃ r k1, setActiveThread k = some (r, k1) ∧
      (r = 0 → ∀ i t, 1 ≤ i → k.threads[i]? = some t → is_runnable t.state = true →
        t.priority = ThreadPriority.none) := by
  obtain ⟨c, tc, t0, hcur, hc, h0, _, hprio, _⟩ :=
    wellFormed_run calls _ k (wellFormed_init stack) h
  obtain ⟨r, tr, hres, htr, _, hmin⟩ := setActiveThread_spec k c tc hcur hc
  refine ⟨r, _, hres, ?_⟩
  intro hr0 i t _ hi hrun
  subst hr0
  have h01 := demoted_getElem? k.threads c tc hc 0 t0 h0
  rw [htr] at h01
  have htrp : tr.priority = ThreadPriority.none := by
    rw [Option.some.inj h01]
    split_ifs
    · rw [demote_priority]; exact hprio
    · exact hprio
  have hi1 := demoted_getElem? k.threads c tc hc i t hi
  have hle := hmin i _ hi1 (Or.inr (by
    split_ifs
    · rw [demote_runnable]; exact hrun
    · exact hrun))
  have e2 : (if i = c then demote t else t).priority = t.priority := by
    split_ifs
    · exact demote_priority t
    · rfl
  rw [e2, htrp] at hle
  exact priority_none_of_le t.priority hle

/-- C5 (amended) at a concrete input: a ready thread `A` of priority `none` and a
thread `B` of priority `high` that has been blocked; `_MAIN` is returned. -/
theorem main_selected_only_over_priority_none_witness :
    ∃ k, run (init startup 0)
        [Call.create "A" 256 7 .none 4096, Call.create "B" 256 8 .high 8192,
         Call.blockThread 2] = some k ∧
      (setActiveThread k).map Prod.fst = some 0 ∧
      k.threads.map (fun t => (t.priority, t.state)) =
        [(ThreadPriority.none, ThreadState.active), (ThreadPriority.none, ThreadState.queued),
         (ThreadPriority.high, ThreadState.blocked)] ∧
      ∃ r k1, setActiveThread k = some (r, k1) ∧
        (r = 0 → ∀ i t, 1 ≤ i → k.threads[i]? = some t → is_runnable t.state = true →
          t.priority = ThreadPriority.none) :=
  ⟨_, rfl, by decide, by decide, main_selected_only_over_priority_none 0
    [Call.create "A" 256 7 .none 4096, Call.create "B" 256 8 .high 8192,
     Call.blockThread 2] _ rfl⟩

/-! ## Claims C6 to C9: `create` and `thread` -/

/-- For a name that holds no NUL (its C string is the name itself): when it is longer
than `MAX_THREAD_NAME_LEN` or a TCB of the registry already carries it, `create` returns
-1 and leaves the whole kernel state as it was. -/
theorem create_rejects_of_c_str (k : Kernel) (name : String) (stackSize : Int)
    (_func : Nat) (priority : ThreadPriority) (stack : Nat) (hcs : c_str name = name)
    (h : name.length > MAX_THREAD_NAME_LEN ∨ ∃ t ∈ k.threads, t.name = name) :
    create k name stackSize _func priority stack = (-1, k) := by
  rcases create_cases k name stackSize _func priority stack with hc | ⟨hfresh, _⟩
  · exact hc
  · rcases h with h | ⟨t, ht, hname⟩
    · simp [create, h]
    · rw [hcs] at hfresh
      exact absurd hname (hfresh t ht)

/-- C6 (the code at the failing input): after `init()`, `create` with the 3-character
`std::string` `a`, NUL, `z` returns 0; its C string is `a`. A second `create` with the
same `std::string`, which a TCB of the registry now carries, looks up `a`, finds
nothing, returns 0 again and appends a third TCB. -/
theorem create_accepts_registered_name_with_NUL :
    c_str "a\x00z" = "a" ∧ "a\x00z".length = 3 ∧
    (create (init startup 0) "a\x00z" 256 7 .normal 4096).1 = 0 ∧
    (create (init startup 0) "a\x00z" 256 7 .normal 4096).2.threads.map TCB.name =
      ["_MAIN", "a\x00z"] ∧
    (create (create (init startup 0) "a\x00z" 256 7 .normal 4096).2
      "a\x00z" 256 8 .normal 8192).1 = 0 ∧
    (create (create (init startup 0) "a\x00z" 256 7 .normal 4096).2
      "a\x00z" 256 8 .normal 8192).2.threads.length = 3 := by
  refine ⟨by decide, by decide, by decide, by decide, by decide, by decide⟩

/-- C7 (as written, refuted): on the registry that `init()` leaves, `create` with the
empty name returns 0 and the registry has grown from one TCB to two. -/
theorem create_empty_name_accepted :
    (create (init startup 0) "" 256 7 .normal 4096).1 = 0 ∧
    (init startup 0).threads.length = 1 ∧
    (create (init startup 0) "" 256 7 .normal 4096).2.threads.length = 2 := by
  decide

/-- C7 (amended): `create` treats the empty name like any other name of at most 16
characters. When a TCB of the registry is already named "", it returns -1 and leaves the
state as it was; otherwise it returns 0 and appends one TCB named "" in state `queued`. -/
theorem create_empty_name (k : Kernel) (stackSize : Int) (_func : Nat)
    (priority : ThreadPriority) (stack : Nat) :
    create k "" stackSize _func priority stack =
      if ∃ t ∈ k.threads, t.name = "" then (-1, k)
      else (0, { k with threads :=
        k.threads ++ [TCB.new "" priority .queued _func (toU32 stackSize) stack] }) := by
  have hcs : c_str "" = "" := by decide
  split_ifs with h
  · rcases create_cases k "" stackSize _func priority stack with hc | ⟨hfresh, _⟩
    · exact hc
    · obtain ⟨t, ht, hname⟩ := h
      rw [hcs] at hfresh
      exact absurd hname (hfresh t ht)
  · refine create_fresh k "" stackSize _func priority stack (by decide) ?_
    intro t ht hname
    rw [hcs] at hname
    exact h ⟨t, ht, hname⟩

/-- Whatever `create` returns, the TCB at index 0 stays; for a name that holds no NUL
the names of the registry stay pairwise distinct as well. -/
theorem create_keeps_names_distinct_of_c_str (k : Kernel) (name : String) (stackSize : Int)
    (_func : Nat) (priority : ThreadPriority) (stack : Nat) (m : TCB)
    (hmain : k.threads[0]? = some m) :
    (create k name stackSize _func priority stack).2.threads[0]? = some m ∧
    (c_str name = name → (k.threads.map TCB.name).Nodup →
      ((create k name stackSize _func priority stack).2.threads.map TCB.name).Nodup) := by
  rcases create_cases k name stackSize _func priority stack with hc | ⟨hfresh, hc⟩
  · rw [hc]; exact ⟨hmain, fun _ h => h⟩
  · rw [hc]
    constructor
    · have hlt : 0 < k.threads.length := getElem?_lt_length hmain
      simp only
      rw [List.getElem?_append_left hlt]
      exact hmain
    · intro hcs hnodup
      rw [hcs] at hfresh
      simp only [List.map_append, List.map_cons, List.map_nil]
      rw [List.nodup_append]
      refine ⟨hnodup, by simp, ?_⟩
      intro a ha hb
      simp only [List.mem_map] at ha
      obtain ⟨t, ht, hta⟩ := ha
      simp only [List.mem_singleton] at hb
      apply hfresh t ht
      rw [hta, hb]
      rfl

/-- C8 (the code at the failing input): the registry `_MAIN`, `a NUL z` has pairwise
distinct names and `_MAIN` with priority `none` at index 0; `create` with the
`std::string` `a`, NUL, `z` returns 0 on it and leaves a registry in which two TCBs
carry that name. -/
theorem create_repeats_name_with_NUL :
    ((create (init startup 0) "a\x00z" 256 7 .normal 4096).2.threads.map TCB.name).Nodup ∧
    ((create (init startup 0) "a\x00z" 256 7 .normal 4096).2.threads[0]?).map
      (fun t => (t.name, t.priority)) = some ("_MAIN", ThreadPriority.none) ∧
    (create (create (init startup 0) "a\x00z" 256 7 .normal 4096).2
      "a\x00z" 256 8 .normal 8192).2.threads.map TCB.name =
      ["_MAIN", "a\x00z", "a\x00z"] ∧
    ¬ ((create (create (init startup 0) "a\x00z" 256 7 .normal 4096).2
      "a\x00z" 256 8 .normal 8192).2.threads.map TCB.name).Nodup := by
  refine ⟨by decide, by decide, by decide, by decide⟩

/-- For a name of at most 16 characters that holds no NUL and that no TCB of the
registry carries, `create` returns 0 and appends one TCB with that name, the given
priority and state `queued`; every TCB that was in the registry stays at its index;
`thread(name.c_str())` then returns the new TCB. On any registry `thread(n)` returns
nothing for a C string `n` that is longer than 16 or carried by no TCB. -/
theorem create_appends_of_c_str (k : Kernel) (name : String) (stackSize : Int)
    (_func : Nat) (priority : ThreadPriority) (stack : Nat) (hcs : c_str name = name)
    (hlen : name.length ≤ MAX_THREAD_NAME_LEN)
    (hfresh : ∀ t ∈ k.threads, t.name ≠ name) :
    (∃ tcb, create k name stackSize _func priority stack =
        (0, { k with threads := k.threads ++ [tcb] }) ∧
      tcb.name = name ∧ tcb.priority = priority ∧ tcb.state = ThreadState.queued ∧
      (create k name stackSize _func priority stack).2.threads[k.threads.length]? = some tcb) ∧
    (∀ (i : Nat) (t : TCB), k.threads[i]? = some t →
      (create k name stackSize _func priority stack).2.threads[i]? = some t) ∧
    thread (create k name stackSize _func priority stack).2 (c_str name) =
      some k.threads.length ∧
    ∀ (k2 : Kernel) (n : String),
      (n.length > MAX_THREAD_NAME_LEN ∨ ∀ t ∈ k2.threads, t.name ≠ n) → thread k2 n = none := by
  have hc := create_fresh k name stackSize _func priority stack hlen (by rw [hcs]; exact hfresh)
  refine ⟨⟨_, hc, rfl, rfl, rfl, ?_⟩, ?_, ?_, ?_⟩
  · rw [hc]
    simp
  · intro i t hi
    rw [hc]
    simp only
    rw [List.getElem?_append_left (getElem?_lt_length hi)]
    exact hi
  · rw [hc, hcs]
    have hl : ¬ name.length > MAX_THREAD_NAME_LEN := by omega
    simp only [thread, hl, if_false]
    rw [threadScan_append_fresh name k.threads _ 0 hfresh rfl]
    simp
  · intro k2 n hn
    exact (thread_eq_none_iff k2 n).2 hn

/-- C9 (the code at the failing input): on the registry `_MAIN`, `a`, the 3-character
`std::string` `a`, NUL, `z` is carried by no TCB, yet `create` looks up its C string `a`,
finds the TCB `a` and returns -1 without appending. On the registry `init()` leaves the
same `create` returns 0, and `thread` on the C string of the name then returns nothing
instead of the new TCB. -/
theorem create_refuses_fresh_name_with_NUL :
    (1 ≤ "a\x00z".length ∧ "a\x00z".length ≤ MAX_THREAD_NAME_LEN) ∧
    (create (init startup 0) "a" 256 7 .normal 4096).2.threads.map TCB.name =
      ["_MAIN", "a"] ∧
    create (create (init startup 0) "a" 256 7 .normal 4096).2 "a\x00z" 256 8 .normal 8192 =
      (-1, (create (init startup 0) "a" 256 7 .normal 4096).2) ∧
    (create (init startup 0) "a\x00z" 256 8 .normal 8192).1 = 0 ∧
    thread (create (init startup 0) "a\x00z" 256 8 .normal 8192).2 (c_str "a\x00z") =
      none := by
  refine ⟨by decide, by decide, by decide, by decide, by decide⟩

/-! ## Claim C10: sleep expiry -/

/-- C10: `sleep(ms)` at clock reading `start` leaves the current TCB `sleeping` with
`start` and `ms` recorded, so that `sleep_until = start + ms`; and whenever a TCB is
`sleeping` with that record, `updateThreads` at a clock reading `now ≥ start + ms` makes
it `paused` and changes nothing else of it. -/
theorem updateThreads_wakes_expired_sleeper (k k1 : Kernel) (ms start : Nat)
    (hstart : start < 2 ^ 32) (hms : ms < 2 ^ 32) (hs : sleep k ms start = some k1) :
    (∃ c t, k1.CurrentTCB = some c ∧ k1.threads[c]? = some t ∧
      t.state = ThreadState.sleeping ∧ t.sleep = { start := start, delay := ms }) ∧
    ∀ (k2 : Kernel) (i : Nat) (t : TCB) (now : Nat), k2.threads[i]? = some t →
      t.state = ThreadState.sleeping → t.sleep = { start := start, delay := ms } →
      now < 2 ^ 32 → start + ms ≤ now →
      (updateThreads k2 now).threads[i]? = some { t with state := ThreadState.paused } := by
  constructor
  · simp only [sleep] at hs
    cases hd : deref k k.CurrentTCB with
    | none => rw [hd] at hs; simp at hs
    | some ct =>
      obtain ⟨c, t⟩ := ct
      rw [hd] at hs
      simp only [Option.some.injEq] at hs
      obtain ⟨hcur, hc⟩ := deref_eq_some hd
      subst hs
      refine ⟨c, _, hcur, List.getElem?_set_self (getElem?_lt_length hc), rfl, ?_⟩
      show ({ start := start % 2 ^ 32, delay := ms % 2 ^ 32 } : sleep_t) = _
      rw [Nat.mod_eq_of_lt hstart, Nat.mod_eq_of_lt hms]
  · intro k2 i t now hi hst hsl hnow hle
    rw [updateThreads_getElem?, hi]
    have hb : t.sleep.toBool now = true := by
      simp only [sleep_t.toBool, hsl, decide_eq_true_eq]
      rw [sub32_of_le now start hnow (by omega)]
      omega
    simp [updateThread, hst, hb]

/-- C10 at a concrete input: `_MAIN` calls `sleep(50)` at clock reading 100; it is still
`sleeping` after `updateThreads` at 149 and `paused` after `updateThreads` at 150. -/
theorem updateThreads_wakes_expired_sleeper_witness :
    ∃ k1, sleep (init startup 0) 50 100 = some k1 ∧
      (updateThreads k1 149).threads.map TCB.state = [ThreadState.sleeping] ∧
      (updateThreads k1 150).threads[0]? =
        some { sp := 48, func := 0, priority := ThreadPriority.none,
               state := ThreadState.paused, sleep := { start := 100, delay := 50 },
               name := "_MAIN", stack := 0 } := by
  have h := (updateThreads_wakes_expired_sleeper (init startup 0)
      { enabled := false
        threads := [{ sp := 48, func := 0, priority := ThreadPriority.none,
                      state := ThreadState.sleeping, sleep := { start := 100, delay := 50 },
                      name := "_MAIN", stack := 0 }]
        CurrentTCB := some 0
        PENDSVSET := true }
      50 100 (by decide) (by decide) rfl).2
      { enabled := false
        threads := [{ sp := 48, func := 0, priority := ThreadPriority.none,
                      state := ThreadState.sleeping, sleep := { start := 100, delay := 50 },
                      name := "_MAIN", stack := 0 }]
        CurrentTCB := some 0
        PENDSVSET := true }
      0 _ 150 rfl rfl rfl (by decide) (by decide)
  exact ⟨_, rfl, by decide, h⟩

/-! ## Further lemmas: timers, registry updates, the selector up to sleep records -/

theorem sub32_elapsed (start e : Nat) (he : e < 2 ^ 32) :
    sub32 ((start + e) % 2 ^ 32) start = e := by
  unfold sub32
  omega

/-- The request of `create` is at least 96 bytes exactly when the converted size leaves
room for the frame below `2 ^ 32`. -/
theorem create_mallocArg_ge_iff (stackSize : Int) :
    96 ≤ create_mallocArg stackSize ↔ toU32 stackSize < 2 ^ 32 - 48 := by
  have hlt : toU32 stackSize < 2 ^ 32 := by
    unfold toU32
    omega
  unfold create_mallocArg TCB.mallocArg TCB.clampStackSize sizeof_stack_t
  rw [Nat.mod_eq_of_lt hlt]
  split_ifs <;> omega

theorem active_only_at_set (l : List TCB) (c i : Nat) (t1 : TCB)
    (h : ∀ (j : Nat) (x : TCB), l[j]? = some x → x.state = ThreadState.active → j = c)
    (hs : t1.state ≠ ThreadState.active) :
    ∀ (j : Nat) (x : TCB), (l.set i t1)[j]? = some x → x.state = ThreadState.active →
      j = c := by
  intro j x hj hx
  rw [List.getElem?_set] at hj
  by_cases hij : i = j
  · simp only [hij, if_true] at hj
    split_ifs at hj
    rw [← Option.some.inj hj] at hx
    exact absurd hx hs
  · simp only [hij, if_false] at hj
    exact h j x hj hx

theorem set_eq_self_of_getElem? {α : Type} (l : List α) (i : Nat) (a : α)
    (h : l[i]? = some a) : l.set i a = l := by
  apply List.ext_getElem?
  intro j
  rw [List.getElem?_set]
  by_cases hij : i = j
  · subst hij
    have hlt : i < l.length := by
      by_contra hn
      rw [List.getElem?_eq_none (by omega)] at h
      exact absurd h (by simp)
    simp [hlt, h]
  · simp [hij]

theorem map_set_same {β : Type} (f : TCB → β) (l : List TCB) (i : Nat) (t t1 : TCB)
    (hi : l[i]? = some t) (hf : f t1 = f t) : (l.set i t1).map f = l.map f := by
  rw [List.map_set]
  apply set_eq_self_of_getElem?
  rw [List.getElem?_map, hi, hf]
  rfl

theorem frame_demote (t : TCB) : (demote t).frame = t.frame := by
  unfold demote; split_ifs <;> rfl

theorem frame_updateThread (now : Nat) (t : TCB) : (updateThread now t).frame = t.frame := by
  unfold updateThread; split_ifs <;> rfl

/-- A scheduler pass changes nothing of any TCB but its `state`, and returns an index
inside the registry. -/
theorem SwitchContext_frame (k : Kernel) (now c : Nat) (tc : TCB)
    (hcur : k.CurrentTCB = some c) (hc : k.threads[c]? = some tc) :
    ∃ r k1, SwitchContext k now = some (r, k1) ∧ r < k.threads.length ∧
      k1.CurrentTCB = some r ∧ k1.threads.map TCB.frame = k.threads.map TCB.frame := by
  have hcur1 : (updateThreads k now).CurrentTCB = some c := hcur
  have hc1 : (updateThreads k now).threads[c]? = some (updateThread now tc) := by
    rw [updateThreads_getElem?, hc]; rfl
  obtain ⟨r, tr, hres, htr, _, _⟩ :=
    setActiveThread_spec (updateThreads k now) c (updateThread now tc) hcur1 hc1
  refine ⟨r, _, hres, ?_, rfl, ?_⟩
  · have := getElem?_lt_length htr
    simpa [updateThreads] using this
  · simp only
    rw [map_set_same TCB.frame _ r tr { tr with state := .active } htr rfl,
      map_set_same TCB.frame _ c (updateThread now tc) (demote (updateThread now tc)) hc1
        (frame_demote _)]
    simp only [updateThreads, List.map_map]
    apply List.map_congr_left
    intro t _
    exact frame_updateThread now t

/-- The result of `setActiveThread` written out, given the registry after its first
statement. -/
theorem setActiveThread_eq (k : Kernel) (c : Nat) (tc t0 : TCB) (rest : List TCB)
    (hcur : k.CurrentTCB = some c) (hc : k.threads[c]? = some tc)
    (hth : k.threads.set c (demote tc) = t0 :: rest) :
    setActiveThread k = some ((selectLoop rest 1 (0, t0)).1,
      { k with threads := (t0 :: rest).set (selectLoop rest 1 (0, t0)).1
                 { (selectLoop rest 1 (0, t0)).2 with state := .active },
               CurrentTCB := some (selectLoop rest 1 (0, t0)).1 }) := by
  have hd : demoteCurrent k = some { k with threads := k.threads.set c (demote tc) } := by
    simp [demoteCurrent, deref, hcur, hc]
  simp [setActiveThread, hd, hth]

/-- The tie-break of the loop: when the candidate it ends with is `queued`, it either is
the candidate it started with or is strictly more urgent than that one, and no `paused`
TCB the loop went over has its priority. -/
theorem selectLoop_queued (rest : List TCB) (i : Nat) (sel : Nat × TCB)
    (hq : (selectLoop rest i sel).2.state = ThreadState.queued) :
    (selectLoop rest i sel = sel ∨
      (selectLoop rest i sel).2.priority.toInt < sel.2.priority.toInt) ∧
    ∀ t ∈ rest, t.state = ThreadState.paused →
      t.priority ≠ (selectLoop rest i sel).2.priority := by
  induction rest generalizing i sel with
  | nil => simp [selectLoop]
  | cons t rest ih =>
    simp only [selectLoop] at hq ⊢
    obtain ⟨a1, a2⟩ := ih (i + 1) (selectStep sel i t) hq
    have hle := selectStep_priority_le sel i t
    constructor
    · rcases a1 with h | h
      · rw [h] at hq ⊢
        unfold selectStep at hq ⊢
        split_ifs at hq ⊢ with h1 h2 h3
        · left; rfl
        · right; exact h2
        · exfalso
          simp only at hq
          rw [h3.2.1] at hq
          exact absurd hq (by simp)
        · left; rfl
      · right; omega
    · intro x hx hxp
      rcases List.mem_cons.1 hx with hxt | hxr
      · subst hxt
        have hrun : is_runnable x.state = true := by simp [hxp, is_runnable]
        rcases a1 with h | h
        · rw [h] at hq ⊢
          have hnw : ¬ x.state.toNat ≥ waiting := by
            have := (is_runnable_iff _).1 hrun
            omega
          unfold selectStep at hq ⊢
          simp only [hnw, if_false] at hq ⊢
          split_ifs at hq ⊢ with h2 h3
          · simp only at hq
            rw [hxp] at hq
            exact absurd hq (by simp)
          · simp only at hq
            rw [hxp] at hq
            exact absurd hq (by simp)
          · intro e
            exact h3 ⟨e, hxp, hq⟩
        · have := selectStep_priority_le_runnable sel i x hrun
          intro e
          rw [e] at this
          omega
      · exact a2 x hxr hxp

theorem selectStep_clearSleep (sel : Nat × TCB) (i : Nat) (t : TCB) :
    selectStep (sel.1, sel.2.clearSleep) i t.clearSleep =
      ((selectStep sel i t).1, (selectStep sel i t).2.clearSleep) := by
  unfold selectStep
  simp only [TCB.clearSleep]
  split_ifs <;> rfl

theorem selectLoop_clearSleep (rest : List TCB) (i : Nat) (sel : Nat × TCB) :
    selectLoop (rest.map TCB.clearSleep) i (sel.1, sel.2.clearSleep) =
      ((selectLoop rest i sel).1, (selectLoop rest i sel).2.clearSleep) := by
  induction rest generalizing i sel with
  | nil => rfl
  | cons t rest ih =>
    simp only [List.map_cons, selectLoop]
    rw [selectStep_clearSleep]
    exact ih (i + 1) (selectStep sel i t)

/-- Two kernel states that have the same `CurrentTCB` and, after the first statement of
`setActiveThread`, the same registry up to sleep records, get the same TCB returned and
are left with the same registry up to sleep records. -/
theorem setActiveThread_clearSleep (ka kb : Kernel) (c : Nat) (ta tb : TCB)
    (hcura : ka.CurrentTCB = some c) (hca : ka.threads[c]? = some ta)
    (hcurb : kb.CurrentTCB = some c) (hcb : kb.threads[c]? = some tb)
    (h : (ka.threads.set c (demote ta)).map TCB.clearSleep =
      (kb.threads.set c (demote tb)).map TCB.clearSleep) :
    ∃ r ka1 kb1, setActiveThread ka = some (r, ka1) ∧ setActiveThread kb = some (r, kb1) ∧
      ka1.CurrentTCB = some r ∧ kb1.CurrentTCB = some r ∧
      ka1.threads.map TCB.clearSleep = kb1.threads.map TCB.clearSleep ∧
      ka1.PENDSVSET = ka.PENDSVSET ∧ kb1.PENDSVSET = kb.PENDSVSET ∧
      ka1.enabled = ka.enabled ∧ kb1.enabled = kb.enabled := by
  have hlta := getElem?_lt_length hca
  have hltb := getElem?_lt_length hcb
  cases htha : ka.threads.set c (demote ta) with
  | nil =>
    have : (ka.threads.set c (demote ta)).length = 0 := by rw [htha]; rfl
    rw [List.length_set] at this
    omega
  | cons a0 resta =>
    cases hthb : kb.threads.set c (demote tb) with
    | nil =>
      have : (kb.threads.set c (demote tb)).length = 0 := by rw [hthb]; rfl
      rw [List.length_set] at this
      omega
    | cons b0 restb =>
      have hl : (a0 :: resta).map TCB.clearSleep = (b0 :: restb).map TCB.clearSleep := by
        rw [← htha, ← hthb]; exact h
      have hl2 := hl
      simp only [List.map_cons, List.cons.injEq] at hl2
      obtain ⟨h0, hrest⟩ := hl2
      have ea := selectLoop_clearSleep resta 1 (0, a0)
      have eb := selectLoop_clearSleep restb 1 (0, b0)
      simp only at ea eb
      rw [hrest, h0, eb] at ea
      have hidx : (selectLoop resta 1 (0, a0)).1 = (selectLoop restb 1 (0, b0)).1 :=
        (congrArg Prod.fst ea).symm
      have htcb : (selectLoop resta 1 (0, a0)).2.clearSleep =
          (selectLoop restb 1 (0, b0)).2.clearSleep := (congrArg Prod.snd ea).symm
      have hx : TCB.clearSleep { (selectLoop resta 1 (0, a0)).2 with state := .active } =
          TCB.clearSleep { (selectLoop restb 1 (0, b0)).2 with state := .active } :=
        congrArg (fun t : TCB => ({ t with state := ThreadState.active } : TCB)) htcb
      have hA := setActiveThread_eq ka c ta a0 resta hcura hca htha
      have hB := setActiveThread_eq kb c tb b0 restb hcurb hcb hthb
      rw [hidx] at hA
      refine ⟨_, _, _, hA, hB, rfl, rfl, ?_, rfl, rfl, rfl, rfl⟩
      simp only
      rw [List.map_set, List.map_set, hl, hx]

/-! ## Claims C11 to C13: clock wraparound, `sleep(0)` and `yield()`, the stack size -/

/-- C11: for 32-bit `start` and `delay` and a true elapsed time `e < 2 ^ 32`, at the
clock reading `now = (start + e) mod 2 ^ 32` the expiry test of `sleep_t` is true exactly
when `e ≥ delay`, and `updateThreads` leaves a TCB that sleeps with that record `paused`
when `e ≥ delay` and untouched (still `sleeping`) when `e < delay`. -/
theorem updateThreads_wraparound (k : Kernel) (i : Nat) (t : TCB) (start delay e : Nat)
    (_hstart : start < 2 ^ 32) (_hdelay : delay < 2 ^ 32) (he : e < 2 ^ 32)
    (hi : k.threads[i]? = some t) (hst : t.state = ThreadState.sleeping)
    (hsl : t.sleep = { start := start, delay := delay }) :
    (t.sleep.toBool ((start + e) % 2 ^ 32) = true ↔ delay ≤ e) ∧
    (updateThreads k ((start + e) % 2 ^ 32)).threads[i]? =
      some (if delay ≤ e then { t with state := ThreadState.paused } else t) ∧
    (((updateThreads k ((start + e) % 2 ^ 32)).threads[i]?).map TCB.state =
      some ThreadState.paused ↔ delay ≤ e) := by
  have hb : t.sleep.toBool ((start + e) % 2 ^ 32) = decide (delay ≤ e) := by
    simp only [sleep_t.toBool, hsl, sub32_elapsed start e he, ge_iff_le]
  generalize (start + e) % 2 ^ 32 = now at hb ⊢
  have hupd : (updateThreads k now).threads[i]? =
      some (if delay ≤ e then { t with state := ThreadState.paused } else t) := by
    rw [updateThreads_getElem?, hi]
    simp only [Option.map_some', updateThread, hst, if_true, hb]
    by_cases h : delay ≤ e
    · simp [h]
    · simp [h]
  refine ⟨by rw [hb]; simp, hupd, ?_⟩
  rw [hupd]
  by_cases h : delay ≤ e
  · simp [h]
  · simp [h, hst]

/-- C11 at a concrete input: `sleep(50)` at clock reading `2 ^ 32 - 10`; after 40 ms the
clock reads 30 and the thread still sleeps, after 60 ms it reads 50 and it is paused. -/
theorem updateThreads_wraparound_witness :
    ∃ k, sleep (init startup 0) 50 4294967286 = some k ∧
      (4294967286 + 40) % 2 ^ 32 = 30 ∧ (4294967286 + 60) % 2 ^ 32 = 50 ∧
      ((updateThreads k 30).threads[0]?).map TCB.state = some ThreadState.sleeping ∧
      (((updateThreads k ((4294967286 + 60) % 2 ^ 32)).threads[0]?).map TCB.state =
        some ThreadState.paused ↔ 50 ≤ 60) :=
  ⟨_, rfl, by decide, by decide, by decide,
   (updateThreads_wraparound
      { enabled := false
        threads := [{ sp := 48, func := 0, priority := ThreadPriority.none,
                      state := ThreadState.sleeping,
                      sleep := { start := 4294967286, delay := 50 },
                      name := "_MAIN", stack := 0 }]
        CurrentTCB := some 0
        PENDSVSET := true }
      0 _ 4294967286 50 60 (by decide) (by decide) (by decide) rfl rfl rfl).2.2⟩

/-- C12: from a state in which the TCB `CurrentTCB` points to is `active`, `sleep(0)` at
any clock reading followed by a scheduler pass, and `yield()` followed by a scheduler
pass at the same clock reading, both return; they return the same TCB, leave the same
`CurrentTCB` and the same state, priority, name, `sp` and stack for every TCB of the
registry, and the same `enabled` and pending flag. -/
theorem sleep_zero_equiv_yield (k : Kernel) (c : Nat) (tc : TCB) (millis now : Nat)
    (hcur : k.CurrentTCB = some c) (hc : k.threads[c]? = some tc)
    (hrun : tc.state = ThreadState.active) :
    ∃ ks r ka kb, sleep k 0 millis = some ks ∧
      SwitchContext ks now = some (r, ka) ∧
      SwitchContext (yield k) now = some (r, kb) ∧
      ka.CurrentTCB = some r ∧ kb.CurrentTCB = some r ∧
      ka.threads.map TCB.state = kb.threads.map TCB.state ∧
      ka.threads.map TCB.clearSleep = kb.threads.map TCB.clearSleep ∧
      ka.enabled = kb.enabled ∧ ka.PENDSVSET = kb.PENDSVSET := by
  have hclt := getElem?_lt_length hc
  have hdc : deref k k.CurrentTCB = some (c, tc) := by
    rw [hcur]; exact deref_of_getElem? hc
  obtain ⟨t3, ht3s, ht3d, ht3f, hsleep⟩ : ∃ t3 : TCB, t3.state = ThreadState.sleeping ∧
      t3.sleep.delay = 0 ∧ t3.clearSleep = ({ tc with state := .sleeping } : TCB).clearSleep ∧
      sleep k 0 millis = some (PendSV_Trigger { k with threads := k.threads.set c t3 }) := by
    refine ⟨{ tc with state := .sleeping,
                      sleep := { start := millis % 2 ^ 32, delay := 0 % 2 ^ 32 } },
      rfl, rfl, rfl, ?_⟩
    simp only [sleep, hdc]
  have hu3 : updateThread now t3 = { t3 with state := .paused } := by
    have hb : t3.sleep.toBool now = true := by
      simp [sleep_t.toBool, ht3d]
    simp [updateThread, ht3s, hb]
  have hutc : updateThread now tc = tc := by
    simp [updateThread, hrun]
  have hca : (updateThreads (PendSV_Trigger { k with threads := k.threads.set c t3 })
      now).threads[c]? = some (updateThread now t3) := by
    rw [updateThreads_getElem?]
    simp only [PendSV_Trigger]
    rw [List.getElem?_set_self hclt]
    rfl
  have hcb : (updateThreads (yield k) now).threads[c]? = some (updateThread now tc) := by
    rw [updateThreads_getElem?]
    simp only [yield, PendSV_Trigger]
    rw [hc]
    rfl
  have hkey : ((updateThreads (PendSV_Trigger { k with threads := k.threads.set c t3 })
        now).threads.set c (demote (updateThread now t3))).map TCB.clearSleep =
      ((updateThreads (yield k) now).threads.set c
        (demote (updateThread now tc))).map TCB.clearSleep := by
    simp only [updateThreads, yield, PendSV_Trigger, List.map_set, List.set_set]
    congr 1
    rw [hu3, hutc]
    have e1 : demote ({ t3 with state := .paused } : TCB) = { t3 with state := .paused } :=
      demote_of_not_active _ (by simp)
    rw [e1]
    have e2 : demote tc = { tc with state := .paused } := by simp [demote, hrun]
    rw [e2]
    have := congrArg (fun t : TCB => ({ t with state := ThreadState.paused } : TCB)) ht3f
    simpa [TCB.clearSleep] using this
  obtain ⟨r, ka, kb, ha, hb, hcura, hcurb, hthreads, hpa, hpb, hea, heb⟩ :=
    setActiveThread_clearSleep
      (updateThreads (PendSV_Trigger { k with threads := k.threads.set c t3 }) now)
      (updateThreads (yield k) now) c _ _ hcur hca hcur hcb hkey
  refine ⟨_, r, ka, kb, hsleep, ha, hb, hcura, hcurb, ?_, hthreads, ?_, ?_⟩
  · have := congrArg (List.map TCB.state) hthreads
    simpa [List.map_map, Function.comp, TCB.clearSleep] using this
  · rw [hea, heb]
    rfl
  · rw [hpa, hpb]
    rfl

/-- C12 at a concrete input: thread `A` runs, `_MAIN` is paused; `sleep(0)` at clock
reading 7 and `yield()`, each followed by the pass at clock reading 9. -/
theorem sleep_zero_equiv_yield_witness :
    ∃ ks r ka kb, sleep
        { enabled := true
          threads := [TCB.new "_MAIN" .none .paused 0 0 0, TCB.new "A" .high .active 7 256 4096]
          CurrentTCB := some 1
          PENDSVSET := false } 0 7 = some ks ∧
      SwitchContext ks 9 = some (r, ka) ∧
      SwitchContext (yield
        { enabled := true
          threads := [TCB.new "_MAIN" .none .paused 0 0 0, TCB.new "A" .high .active 7 256 4096]
          CurrentTCB := some 1
          PENDSVSET := false }) 9 = some (r, kb) ∧
      ka.CurrentTCB = some r ∧ kb.CurrentTCB = some r ∧
      ka.threads.map TCB.state = kb.threads.map TCB.state := by
  obtain ⟨ks, r, ka, kb, h1, h2, h3, h4, h5, h6, _⟩ := sleep_zero_equiv_yield
    { enabled := true
      threads := [TCB.new "_MAIN" .none .paused 0 0 0, TCB.new "A" .high .active 7 256 4096]
      CurrentTCB := some 1
      PENDSVSET := false } 1 (TCB.new "A" .high .active 7 256 4096) 7 9 rfl rfl rfl
  exact ⟨ks, r, ka, kb, h1, h2, h3, h4, h5, h6⟩

/-- C13 (the code at the failing input): `create` with `stackSize = -1` converts the
size to `4294967295`, which is not below 48, and asks `malloc` for
`(4294967295 + 48) mod 2 ^ 32 = 47` bytes, fewer than 96; the `sp` of the new TCB is one
byte below the start of the region `malloc` returned (here 4096). -/
theorem create_negative_stackSize_requests_47_bytes :
    toU32 (-1) = 4294967295 ∧ create_mallocArg (-1) = 47 ∧
    (create (init startup 0) "t" (-1) 7 .normal 4096).1 = 0 ∧
    ((create (init startup 0) "t" (-1) 7 .normal 4096).2.threads[1]?).map
      (fun t => (t.stack, t.sp)) = some (4096, 4095) := by
  refine ⟨by decide, by decide, by decide, by decide⟩

/-! ## Claims C14 to C16: the pending flag, `yield()`, `block(t); unblock(t)` -/

/-- C14 (as written, refuted): in the state `init()` leaves, `enabled` is false and no
switch is pending; `yield()`, `block()`, `unblock(t)` and `sleep(ms)` each return with
the context switch pending. -/
theorem switch_request_ignores_enabled :
    (init startup 0).enabled = false ∧ (init startup 0).PENDSVSET = false ∧
    (yield (init startup 0)).PENDSVSET = true ∧
    (block (init startup 0)).map Kernel.PENDSVSET = some true ∧
    (unblock (init startup 0) (some 0)).map Kernel.PENDSVSET = some true ∧
    (sleep (init startup 0) 5 0).map Kernel.PENDSVSET = some true := by
  refine ⟨by decide, by decide, by decide, by decide, by decide, by decide⟩

/-- C14 (amended): `yield()`, `block()`, `unblock(t)` and `sleep(ms)` return with the
context switch pending whatever `enabled` and the pending flag were, and leave `enabled`
as it was; the request is a no-op when the scheduler is not enabled or a switch is
already pending only in the tick handler `SysTick_Handler_code`. -/
theorem switch_request_sets_pending (k : Kernel) (c i : Nat) (tc t : TCB) (msec millis : Nat)
    (hcur : k.CurrentTCB = some c) (hc : k.threads[c]? = some tc)
    (hi : k.threads[i]? = some t) :
    ((yield k).PENDSVSET = true ∧ (yield k).enabled = k.enabled) ∧
    (∃ k1, block k = some k1 ∧ k1.PENDSVSET = true ∧ k1.enabled = k.enabled) ∧
    (∃ k1, unblock k (some i) = some k1 ∧ k1.PENDSVSET = true ∧ k1.enabled = k.enabled) ∧
    (∃ k1, sleep k msec millis = some k1 ∧ k1.PENDSVSET = true ∧ k1.enabled = k.enabled) ∧
    ((k.enabled = false ∨ k.PENDSVSET = true) → SysTick_Handler_code k = k) ∧
    (k.enabled = true → (SysTick_Handler_code k).PENDSVSET = true) := by
  have hdc : deref k k.CurrentTCB = some (c, tc) := by
    rw [hcur]; exact deref_of_getElem? hc
  have hdi : deref k (some i) = some (i, t) := deref_of_getElem? hi
  have hb : ∃ k1, block k = some k1 ∧ k1.PENDSVSET = true ∧ k1.enabled = k.enabled := by
    simp only [block, hdc]
    exact ⟨_, rfl, rfl, rfl⟩
  have hu : ∃ k1, unblock k (some i) = some k1 ∧ k1.PENDSVSET = true ∧
      k1.enabled = k.enabled := by
    simp only [unblock, hdi]
    exact ⟨_, rfl, rfl, rfl⟩
  have hs : ∃ k1, sleep k msec millis = some k1 ∧ k1.PENDSVSET = true ∧
      k1.enabled = k.enabled := by
    simp only [sleep, hdc]
    exact ⟨_, rfl, rfl, rfl⟩
  refine ⟨⟨rfl, rfl⟩, hb, hu, hs, ?_, ?_⟩
  · intro h
    unfold SysTick_Handler_code
    rcases h with h | h
    · simp [h]
    · simp [h]
  · intro h
    unfold SysTick_Handler_code
    by_cases hp : k.PENDSVSET = true
    · simp [h, hp]
    · simp [h, hp, PendSV_Trigger]

/-- C14 (amended) at a concrete input: the state `init()` leaves, `t = _MAIN`. -/
theorem switch_request_sets_pending_witness :
    (∃ k1, block (init startup 0) = some k1 ∧ k1.PENDSVSET = true ∧
      k1.enabled = (init startup 0).enabled) ∧
    SysTick_Handler_code (init startup 0) = init startup 0 :=
  ⟨(switch_request_sets_pending (init startup 0) 0 0 (TCB.new "_MAIN" .none .active 0 0 0)
      (TCB.new "_MAIN" .none .active 0 0 0) 5 0 rfl rfl rfl).2.1,
   (switch_request_sets_pending (init startup 0) 0 0 (TCB.new "_MAIN" .none .active 0 0 0)
      (TCB.new "_MAIN" .none .active 0 0 0) 5 0 rfl rfl rfl).2.2.2.2.1 (Or.inl rfl)⟩

/-- C15 (the code at the failing input): `A` and `B` are created with priority `normal`;
`A` runs first and sleeps 10 ms, `B` runs and calls `yield()` when the 10 ms are over.
At that pass `B` is the running `CurrentTCB`, `A` wakes with the same priority, no TCB is
more urgent than `B`, and `setActiveThread` returns `A` (index 1), not `B` (index 2). -/
theorem yield_resumes_equal_priority_thread :
    ∃ k k1, run (init startup 0)
        [Call.create "A" 256 7 .normal 4096, Call.create "B" 256 8 .normal 8192,
         Call.SwitchContext 0, Call.sleep 10 0, Call.SwitchContext 0, Call.yield] = some k ∧
      k.CurrentTCB = some 2 ∧
      k.threads.map (fun t => (t.name, t.priority, t.state)) =
        [("_MAIN", ThreadPriority.none, ThreadState.paused),
         ("A", ThreadPriority.normal, ThreadState.sleeping),
         ("B", ThreadPriority.normal, ThreadState.active)] ∧
      SwitchContext k 10 = some (1, k1) ∧
      k1.threads.map TCB.state =
        [ThreadState.paused, ThreadState.active, ThreadState.paused] := by
  exact ⟨_, _, rfl, by decide, by decide, rfl, by decide⟩

/-- C16: for a TCB `t` at index `i` of the registry, whatever its state, `block(t)` and
then `unblock(t)` both return; afterwards `t` is `paused` with every other member (`sp`,
`priority`, `name`, ...) as before, every other TCB is as before, `CurrentTCB` and
`enabled` are as before, and the context switch is pending. -/
theorem block_unblock_restores (k : Kernel) (i : Nat) (t : TCB)
    (hi : k.threads[i]? = some t) :
    ∃ k1 k2, blockThread k (some i) = some k1 ∧ unblock k1 (some i) = some k2 ∧
      k2.threads[i]? = some { t with state := ThreadState.paused } ∧
      is_runnable ThreadState.paused = true ∧
      (∀ j, j ≠ i → k2.threads[j]? = k.threads[j]?) ∧
      k2.threads.length = k.threads.length ∧
      k2.CurrentTCB = k.CurrentTCB ∧ k2.enabled = k.enabled ∧ k2.PENDSVSET = true := by
  have hlt := getElem?_lt_length hi
  have h1 : blockThread k (some i) =
      some { k with threads := k.threads.set i { t with state := .blocked } } := by
    simp [blockThread, deref, hi]
  have hi1 : (k.threads.set i { t with state := .blocked })[i]? =
      some { t with state := .blocked } := List.getElem?_set_self hlt
  have h2 : unblock { k with threads := k.threads.set i { t with state := .blocked } }
      (some i) = some (PendSV_Trigger { k with threads :=
        (k.threads.set i { t with state := .blocked }).set i { t with state := .paused } }) := by
    simp [unblock, deref, hi1]
  refine ⟨_, _, h1, h2, ?_, rfl, ?_, ?_, rfl, rfl, rfl⟩
  · simp only [PendSV_Trigger]
    exact List.getElem?_set_self (by simpa using hlt)
  · intro j hj
    simp only [PendSV_Trigger]
    rw [List.getElem?_set_ne (Ne.symm hj), List.getElem?_set_ne (Ne.symm hj)]
  · simp [PendSV_Trigger]

/-- C16 at a concrete input: `block(t); unblock(t)` on the running `_MAIN`. -/
theorem block_unblock_restores_witness :
    ∃ k1 k2, blockThread (init startup 0) (some 0) = some k1 ∧
      unblock k1 (some 0) = some k2 ∧
      k2.threads[0]? = some (TCB.new "_MAIN" .none .paused 0 0 0) ∧
      k2.PENDSVSET = true := by
  obtain ⟨k1, k2, h1, h2, h3, _, _, _, _, _, h4⟩ :=
    block_unblock_restores (init startup 0) 0 (TCB.new "_MAIN" .none .active 0 0 0) rfl
  exact ⟨k1, k2, h1, h2, h3, h4⟩

/-! ## Claims C17 and C18: the termination trampoline, the running TCB -/

/-- C17: when `CurrentTCB` points to the TCB `tz` at an index `c ≥ 1` of the registry,
`onReturn` returns; the registry is the old one without the entry at `c` (entries below
`c`, `_MAIN` among them, stay where they are, entries above move down by one), `CurrentTCB`
is `_MAIN` and the context switch is pending. The following scheduler pass returns a TCB
of that shorter registry, which still consists of the other TCBs in their order; no TCB
of it carries the name of `tz` when the names were pairwise distinct. -/
theorem onReturn_removes_current (k : Kernel) (c : Nat) (tz : TCB)
    (hcur : k.CurrentTCB = some c) (hc : k.threads[c]? = some tz) (hroot : 1 ≤ c) :
    ∃ k1, onReturn k = some k1 ∧
      k1.threads = k.threads.eraseIdx c ∧
      k1.threads.length + 1 = k.threads.length ∧
      (∀ j, j < c → k1.threads[j]? = k.threads[j]?) ∧
      (∀ j, c ≤ j → k1.threads[j]? = k.threads[j + 1]?) ∧
      k1.threads[0]? = k.threads[0]? ∧
      k1.CurrentTCB = some 0 ∧ main k1 = some 0 ∧ k1.PENDSVSET = true ∧
      ∀ now : Nat, ∃ r k2, SwitchContext k1 now = some (r, k2) ∧
        r < k1.threads.length ∧ k2.CurrentTCB = some r ∧
        k2.threads.map TCB.frame = (k.threads.eraseIdx c).map TCB.frame ∧
        ((k.threads.map TCB.name).Nodup → ∀ t ∈ k2.threads, t.name ≠ tz.name) := by
  have hclt := getElem?_lt_length hc
  have hdc : deref k k.CurrentTCB = some (c, tz) := by
    rw [hcur]; exact deref_of_getElem? hc
  have hlen : (k.threads.eraseIdx c).length + 1 = k.threads.length :=
    List.length_eraseIdx_add_one hclt
  obtain ⟨t0, h0⟩ : ∃ t0, (k.threads.eraseIdx c)[0]? = some t0 :=
    ⟨(k.threads.eraseIdx c)[0], List.getElem?_eq_getElem (by omega)⟩
  have hmain : main { k with threads := k.threads.eraseIdx c } = some 0 := by
    simp only [main]
    cases he : k.threads.eraseIdx c with
    | nil => rw [he] at h0; simp at h0
    | cons x xs => rfl
  have hret : onReturn k = some (PendSV_Trigger
      { k with threads := k.threads.eraseIdx c, CurrentTCB := some 0 }) := by
    simp only [onReturn, hdc, hmain]
  refine ⟨_, hret, rfl, hlen, ?_, ?_, ?_, rfl, ?_, rfl, ?_⟩
  · intro j hj
    exact List.getElem?_eraseIdx_of_lt _ _ _ hj
  · intro j hj
    exact List.getElem?_eraseIdx_of_ge _ _ _ hj
  · exact List.getElem?_eraseIdx_of_lt _ _ _ (by omega)
  · exact hmain
  · intro now
    obtain ⟨r, k2, hres, hr, hcur2, hframe⟩ := SwitchContext_frame
      (PendSV_Trigger { k with threads := k.threads.eraseIdx c, CurrentTCB := some 0 })
      now 0 t0 rfl h0
    refine ⟨r, k2, hres, hr, hcur2, hframe, ?_⟩
    intro hnodup t ht hname
    have hmem : t.name ∈ k2.threads.map TCB.name := List.mem_map_of_mem _ ht
    have hnames : k2.threads.map TCB.name = (k.threads.eraseIdx c).map TCB.name := by
      have h := congrArg (List.map (fun f => f.2.2.2.2.1)) hframe
      simpa [List.map_map, TCB.frame, Function.comp] using h
    rw [hnames, List.mem_map] at hmem
    obtain ⟨x, hx, hxn⟩ := hmem
    obtain ⟨i, hic, hix⟩ := List.mem_eraseIdx_iff_getElem?.1 hx
    have hilt := getElem?_lt_length hix
    have e1 : (k.threads.map TCB.name)[i]? = some tz.name := by
      rw [List.getElem?_map, hix]; simp [hxn, hname]
    have e2 : (k.threads.map TCB.name)[c]? = some tz.name := by
      rw [List.getElem?_map, hc]; rfl
    have hi' : i < (k.threads.map TCB.name).length := by simpa using hilt
    have hc' : c < (k.threads.map TCB.name).length := by simpa using hclt
    have e3 : (k.threads.map TCB.name)[i] = (k.threads.map TCB.name)[c] := by
      rw [List.getElem?_eq_getElem hi'] at e1
      rw [List.getElem?_eq_getElem hc'] at e2
      rw [Option.some.inj e1, Option.some.inj e2]
    exact hic ((hnodup.getElem_inj_iff).1 e3)

/-- C17 at a concrete input: thread `Z` (index 1) runs and returns while `B` (index 2)
is ready; `Z` is removed, `B` moves to index 1 and the following pass returns it. -/
theorem onReturn_removes_current_witness :
    ∃ k1 k2, onReturn
        { enabled := true
          threads := [TCB.new "_MAIN" .none .paused 0 0 0, TCB.new "Z" .high .active 7 256 4096,
                      TCB.new "B" .normal .queued 8 256 8192]
          CurrentTCB := some 1
          PENDSVSET := false } = some k1 ∧
      k1.threads.map TCB.name = ["_MAIN", "B"] ∧ k1.CurrentTCB = some 0 ∧
      k1.PENDSVSET = true ∧
      SwitchContext k1 0 = some (1, k2) ∧ k2.threads.map TCB.name = ["_MAIN", "B"] := by
  obtain ⟨k1, h1, _⟩ := onReturn_removes_current
    { enabled := true
      threads := [TCB.new "_MAIN" .none .paused 0 0 0, TCB.new "Z" .high .active 7 256 4096,
                  TCB.new "B" .normal .queued 8 256 8192]
      CurrentTCB := some 1
      PENDSVSET := false } 1 (TCB.new "Z" .high .active 7 256 4096) rfl rfl (by decide)
  have e : k1 = { enabled := true
                  threads := [TCB.new "_MAIN" .none .paused 0 0 0,
                              TCB.new "B" .normal .queued 8 256 8192]
                  CurrentTCB := some 0
                  PENDSVSET := true } := Option.some.inj (h1.symm.trans rfl)
  subst e
  exact ⟨_, _, h1, rfl, rfl, rfl, rfl, rfl⟩

/-- C18 (as written, refuted): with the scheduler enabled and `_MAIN` the one running
TCB, `block(t)` with `t = self()` returns with no TCB running and no context switch
pending. -/
theorem block_self_leaves_none_running :
    ∃ k1, ({ init startup 0 with enabled := true } : Kernel).threads.map TCB.state =
        [ThreadState.active] ∧
      self { init startup 0 with enabled := true } = some 0 ∧
      blockThread { init startup 0 with enabled := true } (some 0) = some k1 ∧
      k1.enabled = true ∧ k1.PENDSVSET = false ∧
      k1.threads.map TCB.state = [ThreadState.blocked] := by
  exact ⟨_, by decide, by decide, rfl, by decide, by decide, by decide⟩

/-- C18 (amended): from a state in which the TCB `CurrentTCB` points to is the one
`active` TCB, every primitive called on a registry member returns and leaves no TCB
other than that one `active`. Unless the call is `block(t)` with `t = self()`, a return
without a context switch pending leaves that TCB `active`; `block(t)` with `t = self()`
leaves no TCB `active` and the pending flag as it was. The value of `enabled` plays no
part. -/
theorem primitives_keep_at_most_one_active (k : Kernel) (c : Nat) (tc : TCB) (call : Call)
    (hcur : k.CurrentTCB = some c) (hc : k.threads[c]? = some tc)
    (hrun : tc.state = ThreadState.active)
    (huniq : ∀ (i : Nat) (t : TCB), k.threads[i]? = some t →
      t.state = ThreadState.active → i = c)
    (hprim : call.isPrimitive) (hm : call.onMember k) :
    ∃ k1, call.apply k = some k1 ∧
      (∀ (i : Nat) (t : TCB), k1.threads[i]? = some t →
        t.state = ThreadState.active → i = c) ∧
      (call ≠ Call.blockThread c → k1.PENDSVSET = false →
        ∃ t, k1.threads[c]? = some t ∧ t.state = ThreadState.active) ∧
      (call = Call.blockThread c →
        (∀ (i : Nat) (t : TCB), k1.threads[i]? = some t → t.state ≠ ThreadState.active) ∧
        k1.PENDSVSET = k.PENDSVSET) := by
  have hclt := getElem?_lt_length hc
  have hdc : deref k k.CurrentTCB = some (c, tc) := by
    rw [hcur]; exact deref_of_getElem? hc
  cases call with
  | create name stackSize _func priority stack =>
    rcases create_cases k name stackSize _func priority stack with hcr | ⟨_, hcr⟩
    · refine ⟨k, by simp [Call.apply, hcr], huniq, fun _ _ => ⟨tc, hc, hrun⟩, ?_⟩
      intro h; cases h
    · have happ : (Call.create name stackSize _func priority stack).apply k =
          some { k with threads := k.threads ++
            [TCB.new name priority .queued _func (toU32 stackSize) stack] } := by
        simp only [Call.apply, hcr]
      refine ⟨_, happ, ?_, ?_, ?_⟩
      · intro i t hi ht
        simp only at hi
        by_cases hil : i < k.threads.length
        · rw [List.getElem?_append_left hil] at hi
          exact huniq i t hi ht
        · rw [List.getElem?_append_right (by omega)] at hi
          have hlt := getElem?_lt_length hi
          simp at hlt
          have h0 : i - k.threads.length = 0 := by omega
          rw [h0] at hi
          simp at hi
          rw [← hi] at ht
          simp [TCB.new] at ht
      · intro _ _
        refine ⟨tc, ?_, hrun⟩
        simp only
        rw [List.getElem?_append_left hclt]
        exact hc
      · intro h; cases h
  | block =>
    have happ : Call.block.apply k = some (PendSV_Trigger
        { k with threads := k.threads.set c { tc with state := .blocked } }) := by
      simp only [Call.apply, block, hdc]
    refine ⟨_, happ, ?_, ?_, ?_⟩
    · exact active_only_at_set k.threads c c _ huniq (by simp)
    · intro _ hp
      simp [PendSV_Trigger] at hp
    · intro h; cases h
  | blockThread th =>
    simp only [Call.onMember] at hm
    have hth : k.threads[th]? = some k.threads[th] := List.getElem?_eq_getElem hm
    have hd := deref_of_getElem? hth
    have happ : (Call.blockThread th).apply k = some
        { k with threads := k.threads.set th { k.threads[th] with state := .blocked } } := by
      simp only [Call.apply, blockThread, hd]
    refine ⟨_, happ, ?_, ?_, ?_⟩
    · exact active_only_at_set k.threads c th _ huniq (by simp)
    · intro hne _
      have hthc : th ≠ c := by
        intro e
        exact hne (by rw [e])
      refine ⟨tc, ?_, hrun⟩
      simp only
      rw [List.getElem?_set_ne hthc]
      exact hc
    · intro h
      have hthc : th = c := by
        injection h
      subst hthc
      refine ⟨?_, rfl⟩
      intro i t hi ht
      have hic := active_only_at_set k.threads th th _ huniq (by simp) i t hi ht
      subst hic
      simp only at hi
      rw [List.getElem?_set_self hm] at hi
      rw [← Option.some.inj hi] at ht
      simp at ht
  | unblock th =>
    simp only [Call.onMember] at hm
    have hth : k.threads[th]? = some k.threads[th] := List.getElem?_eq_getElem hm
    have hd := deref_of_getElem? hth
    have happ : (Call.unblock th).apply k = some (PendSV_Trigger
        { k with threads := k.threads.set th { k.threads[th] with state := .paused } }) := by
      simp only [Call.apply, unblock, hd]
    refine ⟨_, happ, ?_, ?_, ?_⟩
    · exact active_only_at_set k.threads c th _ huniq (by simp)
    · intro _ hp
      simp [PendSV_Trigger] at hp
    · intro h; cases h
  | sleep msec millis =>
    obtain ⟨k1, happ, hk1⟩ : ∃ k1, (Call.sleep msec millis).apply k = some k1 ∧
        ∃ t1 : TCB, t1.state = ThreadState.sleeping ∧
          k1 = PendSV_Trigger { k with threads := k.threads.set c t1 } := by
      simp only [Call.apply, sleep, hdc]
      exact ⟨_, rfl, _, rfl, rfl⟩
    obtain ⟨t1, ht1, rfl⟩ := hk1
    refine ⟨_, happ, ?_, ?_, ?_⟩
    · exact active_only_at_set k.threads c c _ huniq (by simp [ht1])
    · intro _ hp
      simp [PendSV_Trigger] at hp
    · intro h; cases h
  | yield =>
    have happ : Call.yield.apply k = some (yield k) := rfl
    refine ⟨_, happ, huniq, ?_, ?_⟩
    · intro _ hp
      simp [yield, PendSV_Trigger] at hp
    · intro h; cases h
  | SwitchContext millis => exact absurd hprim (by simp [Call.isPrimitive])

/-- C18 (amended) at a concrete input: `block(t)` on the ready thread `A` while `_MAIN`
runs leaves `_MAIN` the one `active` TCB. -/
theorem primitives_keep_at_most_one_active_witness :
    ∃ k1, (Call.blockThread 1).apply
        (create { init startup 0 with enabled := true } "A" 256 7 .high 4096).2 = some k1 ∧
      k1.threads.map TCB.state = [ThreadState.active, ThreadState.blocked] ∧
      (∀ (i : Nat) (t : TCB), k1.threads[i]? = some t →
        t.state = ThreadState.active → i = 0) := by
  obtain ⟨k1, h1, h2, _, _⟩ := primitives_keep_at_most_one_active
    (create { init startup 0 with enabled := true } "A" 256 7 .high 4096).2 0
    (TCB.new "_MAIN" .none .active 0 0 0) (Call.blockThread 1) rfl rfl rfl
    (by
      intro i t hi ht
      have hlt : i < 2 := getElem?_lt_length hi
      rcases Nat.lt_or_ge i 1 with h | h
      · omega
      · have hi1 : i = 1 := by omega
        subst hi1
        have he : some (TCB.new "A" .high .queued 7 (toU32 256) 4096) = some t := hi
        rw [← Option.some.inj he] at ht
        simp [TCB.new] at ht)
    trivial (show 1 < 2 by decide)
  have e : k1 = { enabled := true
                  threads := [TCB.new "_MAIN" .none .active 0 0 0,
                              TCB.new "A" .high .blocked 7 (toU32 256) 4096]
                  CurrentTCB := some 0
                  PENDSVSET := false } := Option.some.inj (h1.symm.trans rfl)
  refine ⟨k1, h1, ?_, h2⟩
  rw [e]
  rfl

/-! ## Claims C19 and C20: the tie-break, the context-switch hook -/

/-- C19: when the TCB `setActiveThread` returns was ready (`queued`) when the loop ran,
no other TCB of the registry with the same priority was `paused` at that time, wherever
it stands in the registry; the TCB `CurrentTCB` points to counts as `paused` when it
enters `active`, since the first statement has made it so. -/
theorem setActiveThread_prefers_started (k : Kernel) (c : Nat) (tc : TCB)
    (hcur : k.CurrentTCB = some c) (hc : k.threads[c]? = some tc) :
    ∃ r k1 tr, setActiveThread k = some (r, k1) ∧
      (k.threads.set c (demote tc))[r]? = some tr ∧
      (tr.state = ThreadState.queued →
        k.threads[r]? = some tr ∧
        (∀ (j : Nat) (t : TCB), (k.threads.set c (demote tc))[j]? = some t →
          t.priority = tr.priority → t.state ≠ ThreadState.paused) ∧
        (∀ (j : Nat) (t : TCB), k.threads[j]? = some t → t.priority = tr.priority →
          t.state ≠ ThreadState.paused ∧ ¬ (j = c ∧ t.state = ThreadState.active))) := by
  have hclt := getElem?_lt_length hc
  cases hth : k.threads.set c (demote tc) with
  | nil =>
    have : (k.threads.set c (demote tc)).length = 0 := by rw [hth]; rfl
    rw [List.length_set] at this
    omega
  | cons t0 rest =>
    have hres := setActiveThread_eq k c tc t0 rest hcur hc hth
    have hrest : ∀ m, rest[m]? = (t0 :: rest)[1 + m]? := by
      intro m
      rw [Nat.add_comm, List.getElem?_cons_succ]
    obtain ⟨a1, _, _, _⟩ := selectLoop_spec (t0 :: rest) rest 1 (0, t0) hrest (by simp)
    refine ⟨_, _, (selectLoop rest 1 (0, t0)).2, hres, a1, ?_⟩
    intro hq
    obtain ⟨b1, b2⟩ := selectLoop_queued rest 1 (0, t0) hq
    have hth1 : ∀ (j : Nat) (t : TCB), (t0 :: rest)[j]? = some t →
        t.priority = (selectLoop rest 1 (0, t0)).2.priority →
        t.state ≠ ThreadState.paused := by
      intro j t hj hp hs
      cases j with
      | zero =>
        simp at hj
        subst hj
        rcases b1 with h | h
        · rw [h] at hq
          simp only at hq
          rw [hs] at hq
          exact absurd hq (by simp)
        · rw [hp] at h
          simp at h
      | succ n =>
        rw [List.getElem?_cons_succ] at hj
        exact b2 t (List.getElem?_mem hj) hs hp
    have horig : ∀ (j : Nat) (t : TCB), k.threads[j]? = some t →
        (t0 :: rest)[j]? = some (if j = c then demote t else t) := by
      intro j t hj
      rw [← hth]
      exact demoted_getElem? k.threads c tc hc j t hj
    refine ⟨?_, hth1, ?_⟩
    · rw [← hth] at a1
      obtain ⟨t, ht, hte⟩ := demoted_getElem?_inv k.threads c tc hc _ _ a1
      rw [ht, hte]
      split_ifs with hrc
      · rw [hte, if_pos hrc] at hq
        have hna : t.state ≠ .active := by
          intro ha
          simp [demote, ha] at hq
        rw [demote_of_not_active t hna]
      · rfl
    · intro j t hj hp
      have h1 := horig j t hj
      by_cases hjc : j = c
      · rw [if_pos hjc] at h1
        have h2 := hth1 j (demote t) h1 (by rw [demote_priority]; exact hp)
        constructor
        · intro hs
          apply h2
          rw [demote_of_not_active t (by simp [hs])]
          exact hs
        · rintro ⟨_, ha⟩
          apply h2
          simp [demote, ha]
      · rw [if_neg hjc] at h1
        exact ⟨hth1 j t h1 hp, fun h => hjc h.1⟩

/-- C19 at a concrete input: `Q`, ready, stands before `P`, paused, both `normal`; the
selector returns `P` (index 2). -/
theorem setActiveThread_prefers_started_witness :
    (setActiveThread
        { enabled := true
          threads := [TCB.new "_MAIN" .none .active 0 0 0, TCB.new "Q" .normal .queued 7 256 4096,
                      TCB.new "P" .normal .paused 8 256 8192]
          CurrentTCB := some 0
          PENDSVSET := false }).map Prod.fst = some 2 ∧
    ∃ r k1 tr, setActiveThread
        { enabled := true
          threads := [TCB.new "_MAIN" .none .active 0 0 0, TCB.new "Q" .normal .queued 7 256 4096,
                      TCB.new "P" .normal .paused 8 256 8192]
          CurrentTCB := some 0
          PENDSVSET := false } = some (r, k1) ∧
      ([TCB.new "_MAIN" .none .paused 0 0 0, TCB.new "Q" .normal .queued 7 256 4096,
        TCB.new "P" .normal .paused 8 256 8192] : List TCB)[r]? = some tr ∧
      tr.state ≠ ThreadState.queued := by
  refine ⟨by decide, ?_⟩
  obtain ⟨r, k1, tr, h1, h2, h3⟩ := setActiveThread_prefers_started
    { enabled := true
      threads := [TCB.new "_MAIN" .none .active 0 0 0, TCB.new "Q" .normal .queued 7 256 4096,
                  TCB.new "P" .normal .paused 8 256 8192]
      CurrentTCB := some 0
      PENDSVSET := false } 0 (TCB.new "_MAIN" .none .active 0 0 0) rfl rfl
  refine ⟨r, k1, tr, h1, h2, ?_⟩
  intro hq
  have h4 := (h3 hq).2.1 2 (TCB.new "P" .normal .paused 8 256 8192) rfl
  have hr : r = 1 := by
    have hlt : r < 3 := getElem?_lt_length h2
    rcases Nat.lt_or_ge r 1 with h | h
    · have h0 : r = 0 := by omega
      subst h0
      have e : some (TCB.new "_MAIN" .none .paused 0 0 0) = some tr := h2
      rw [← Option.some.inj e] at hq
      simp [TCB.new] at hq
    · rcases Nat.lt_or_ge r 2 with h' | h'
      · omega
      · have h2' : r = 2 := by omega
        subst h2'
        have e : some (TCB.new "P" .normal .paused 8 256 8192) = some tr := h2
        rw [← Option.some.inj e] at hq
        simp [TCB.new] at hq
  subst hr
  have e : some (TCB.new "Q" .normal .queued 7 256 4096) = some tr := h2
  rw [← Option.some.inj e] at h4
  exact h4 rfl rfl

/-- C20 (as written, refuted): with the `_MAIN` TCB at address `0x20000000` and its
stack region at `0x20004000`, the pass selects `_MAIN`, whose `sp` member holds
`0x20004030`, and `SwitchContext` returns `0x20000000`, the address of the TCB. -/
theorem SwitchContext_returns_pointer_not_sp :
    ∃ r k1, SwitchContext (init startup 536887296) 0 = some (r, k1) ∧
      (k1.threads[r]?).map TCB.sp = some 536887344 ∧
      SwitchContext_result (fun i => 536870912 + 64 * i) (init startup 536887296) 0 =
        some 536870912 := by
  exact ⟨_, _, rfl, by decide, by decide⟩

/-- C20 (amended): `SwitchContext` applies `updateThreads` and then `setActiveThread`; a
TCB that sleeps with an expired timer is `paused` when the selector runs and the TCB
returned is at least as urgent as it. The value returned is the pointer to the selected
TCB converted to `uint32_t`, the TCB is `CurrentTCB`, and the pass leaves its `sp`
member as it was. -/
theorem SwitchContext_returns_selected_pointer (address : Nat → Nat) (k : Kernel)
    (now c : Nat) (tc : TCB)
    (hcur : k.CurrentTCB = some c) (hc : k.threads[c]? = some tc) :
    ∃ r k1 tr, SwitchContext k now = some (r, k1) ∧
      setActiveThread (updateThreads k now) = some (r, k1) ∧
      SwitchContext_result address k now = some (castU32 address r) ∧
      k1.CurrentTCB = some r ∧ k1.threads[r]? = some tr ∧
      (k.threads[r]?).map TCB.sp = some tr.sp ∧
      ∀ (j : Nat) (t : TCB), k.threads[j]? = some t → t.state = ThreadState.sleeping →
        t.sleep.toBool now = true →
        (updateThreads k now).threads[j]? = some { t with state := ThreadState.paused } ∧
        tr.priority.toInt ≤ t.priority.toInt := by
  have hcur1 : (updateThreads k now).CurrentTCB = some c := hcur
  have hc1 : (updateThreads k now).threads[c]? = some (updateThread now tc) := by
    rw [updateThreads_getElem?, hc]; rfl
  obtain ⟨r, tr, hres, htr, _, hmin⟩ :=
    setActiveThread_spec (updateThreads k now) c (updateThread now tc) hcur1 hc1
  have hrlt : r < ((updateThreads k now).threads.set c
      (demote (updateThread now tc))).length := getElem?_lt_length htr
  refine ⟨r, _, { tr with state := .active }, hres, hres, ?_, rfl, ?_, ?_, ?_⟩
  · simp only [SwitchContext_result, SwitchContext, hres, Option.map_some']
  · simp only
    exact List.getElem?_set_self hrlt
  · obtain ⟨t, ht, hte⟩ := demoted_getElem?_inv _ c _ hc1 r tr htr
    rw [updateThreads_getElem?] at ht
    cases hk : k.threads[r]? with
    | none => rw [hk] at ht; simp at ht
    | some x =>
      rw [hk] at ht
      simp only [Option.map_some', Option.some.injEq] at ht
      have hsp : tr.sp = x.sp := by
        have h1 : t.frame = x.frame := by rw [← ht]; exact frame_updateThread now x
        have h2 : tr.frame = t.frame := by
          rw [hte]
          split_ifs
          · exact frame_demote t
          · rfl
        exact congrArg Prod.fst (h2.trans h1)
      simp [hsp]
  · intro j t hj hst hb
    have hupd : (updateThreads k now).threads[j]? =
        some { t with state := ThreadState.paused } := by
      rw [updateThreads_getElem?, hj]
      simp [updateThread, hst, hb]
    refine ⟨hupd, ?_⟩
    have h1 := demoted_getElem? _ c _ hc1 j _ hupd
    have hd : (if j = c then demote ({ t with state := ThreadState.paused } : TCB)
        else { t with state := ThreadState.paused }) = { t with state := ThreadState.paused } := by
      split_ifs
      · exact demote_of_not_active _ (by simp)
      · rfl
    rw [hd] at h1
    exact hmin j { t with state := ThreadState.paused } h1 (Or.inr rfl)

/-- C20 (amended) at a concrete input: `A` (`high`) sleeps since clock reading 0 for
10 ms while `_MAIN` runs; the pass at clock reading 9 returns the pointer to `_MAIN`,
the pass at clock reading 10 wakes `A` and returns the pointer to `A`. -/
theorem SwitchContext_returns_selected_pointer_witness :
    SwitchContext_result (fun i => 536870912 + 64 * i)
      { enabled := true
        threads := [TCB.new "_MAIN" .none .active 0 0 536887296,
                    { TCB.new "A" .high .sleeping 7 256 536891392 with
                        sleep := { start := 0, delay := 10 } }]
        CurrentTCB := some 0
        PENDSVSET := true } 9 = some 536870912 ∧
    SwitchContext_result (fun i => 536870912 + 64 * i)
      { enabled := true
        threads := [TCB.new "_MAIN" .none .active 0 0 536887296,
                    { TCB.new "A" .high .sleeping 7 256 536891392 with
                        sleep := { start := 0, delay := 10 } }]
        CurrentTCB := some 0
        PENDSVSET := true } 10 = some 536870976 ∧
    ∃ r k1 tr, SwitchContext
      { enabled := true
        threads := [TCB.new "_MAIN" .none .active 0 0 536887296,
                    { TCB.new "A" .high .sleeping 7 256 536891392 with
                        sleep := { start := 0, delay := 10 } }]
        CurrentTCB := some 0
        PENDSVSET := true } 10 = some (r, k1) ∧
      k1.CurrentTCB = some r ∧ k1.threads[r]? = some tr ∧
      tr.priority.toInt ≤ ThreadPriority.high.toInt := by
  refine ⟨by decide, by decide, ?_⟩
  obtain ⟨r, k1, tr, h1, _, _, h4, h5, _, h7⟩ := SwitchContext_returns_selected_pointer
    (fun i => 536870912 + 64 * i)
    { enabled := true
      threads := [TCB.new "_MAIN" .none .active 0 0 536887296,
                  { TCB.new "A" .high .sleeping 7 256 536891392 with
                      sleep := { start := 0, delay := 10 } }]
      CurrentTCB := some 0
      PENDSVSET := true } 10 0 (TCB.new "_MAIN" .none .active 0 0 536887296) rfl rfl
  exact ⟨r, k1, tr, h1, h4, h5,
    (h7 1 { TCB.new "A" .high .sleeping 7 256 536891392 with
              sleep := { start := 0, delay := 10 } } rfl rfl (by decide)).2⟩

end RTOS
